import Mathlib

/-!
Verification of the elevation-profile pipeline of `src/commands/suggest.rs`
(`embed_from_gpx`, `approximate_elevation_points`,
`find_maximum_extremum_between`, `get_projection_dist`).

Modelling conventions:
* `f64` values are modelled as rationals (`ℚ`).  The algorithm only uses
  field operations, comparisons and one square root; rational division by
  zero is `0` in Lean (the code would produce `inf`/`NaN` there; no claim
  rests on that corner).
* The haversine distance comes from the external `geo` crate (not part of
  this repository), so the whole development is parametrised over an
  abstract geographic distance function `hd : Pt → Pt → ℚ`.  Concrete
  witnesses instantiate it with the executable `taxiDist`.
* `get_projection_dist` in the source returns a square root and its result
  is only ever compared (`>`) against other such results and against the
  constant threshold `7.0`.  The embedding `get_projection_dist_sq` keeps
  the squared value and compares against `49 = 7^2`, which by strict
  monotonicity of `Real.sqrt` on nonnegatives decides exactly the same
  comparisons, and keeps every definition executable.
* Rust `Vec` indexing, `Vec::set`-style mutation and `for` loops are
  rendered as total functions on `List` with `List.getD`/`List.set`
  (indices are in range at every call site of the source) and explicit
  tail-recursive loop functions.
* Rust's `Result<_, eyre::Report>` with `?` is rendered as
  `Except String _` with explicit `match`es.
-/

/-- A geographic point: (x, y) coordinates, standing for (lon, lat). -/
abbrev Pt : Type := ℚ × ℚ

/-- Abstract geographic distance (stands for `Haversine::distance` of the
external `geo` crate, which this repository only calls). -/
abbrev GeoDist : Type := Pt → Pt → ℚ

/-- A GPX waypoint as the pipeline consumes it: a geographic point plus an
optional elevation (`gpx::Waypoint::elevation : Option<f64>`). -/
structure Waypoint where
  pt : Pt
  elevation : Option ℚ
deriving DecidableEq

/-- A GPX track: its list of segments, each a list of waypoints
(`gpx::Track::segments[..].points`). -/
structure Track where
  segments : List (List Waypoint)
deriving DecidableEq

/-- `struct ElevationPoint` of `suggest.rs`. -/
structure ElevationPoint where
  pt : Pt
  distance : ℚ
  elevation : ℚ
  extremum : Bool
  survived : Bool
deriving DecidableEq

instance : Inhabited ElevationPoint := ⟨⟨(0, 0), 0, 0, false, false⟩⟩

/-- Elevation at index `i` (`points[i].elevation`). -/
def elevAt (pts : List ElevationPoint) (i : ℕ) : ℚ := (pts.getD i default).elevation

/-- Cumulative/segment distance at index `i` (`points[i].distance`). -/
def distAt (pts : List ElevationPoint) (i : ℕ) : ℚ := (pts.getD i default).distance

/-- Geographic point at index `i` (`points[i].point`). -/
def ptAt (pts : List ElevationPoint) (i : ℕ) : Pt := (pts.getD i default).pt

/-- `points[i].survived`. -/
def survAt (pts : List ElevationPoint) (i : ℕ) : Bool := (pts.getD i default).survived

/-- `points[i].extremum`. -/
def extAt (pts : List ElevationPoint) (i : ℕ) : Bool := (pts.getD i default).extremum

/-- `points[i].survived = b` (in-place update of the flag). -/
def setSurv (pts : List ElevationPoint) (i : ℕ) (b : Bool) : List ElevationPoint :=
  pts.set i { pts.getD i default with survived := b }

/-- `points[i].extremum = b` (in-place update of the flag). -/
def setExt (pts : List ElevationPoint) (i : ℕ) (b : Bool) : List ElevationPoint :=
  pts.set i { pts.getD i default with extremum := b }

/-- The data of an `ElevationPoint` that the pipeline never mutates
(everything except the two boolean flags). -/
def coreData (p : ElevationPoint) : Pt × ℚ × ℚ := (p.pt, p.distance, p.elevation)

/-- The data of an `ElevationPoint` other than the `survived` flag. -/
def nonSurvData (p : ElevationPoint) : Pt × ℚ × ℚ × Bool :=
  (p.pt, p.distance, p.elevation, p.extremum)

/-- Concrete instantiation of the abstract geographic distance, used by the
executable witnesses (the true haversine needs trigonometry and lives in
the external `geo` crate). -/
def taxiDist : GeoDist := fun p q => |p.1 - q.1| + |p.2 - q.2|

/-- `f64::MAX`, the initial value of `min_altitude` in `embed_from_gpx`:
`(2^53 - 1) * 2^971`, written as a decimal literal so that concrete runs
reduce (see `f64MAX_eq` below for the closed form). -/
def f64MAX : ℚ := 179769313486231570814527423731704356798070567525844996598917476803157260780028538760589558632766878171540458953514382464234321326889464182768467546703537516986049910576551282076245490090389328944075868508455133942304583236903222948165808559332123348274797826204144723168738177180919299881250404026184124858368

/-! ## Stage 1: local-extremum survival filter
(`approximate_elevation_points`, first loop). -/

/-- One iteration of the first loop of `approximate_elevation_points` at
index `i`: state is `(points, last_survived, survived_count)`. -/
def stage1Step (st : List ElevationPoint × ℕ × ℕ) (i : ℕ) :
    List ElevationPoint × ℕ × ℕ :=
  let pts := st.1
  let lastSurvived := st.2.1
  let count := st.2.2
  if (elevAt pts i - elevAt pts lastSurvived) * (elevAt pts (i + 1) - elevAt pts i) > 0 then
    (setSurv pts i true, i, count + 1)
  else
    (pts, lastSurvived, count)

/-- The first loop of `approximate_elevation_points`:
`for i in 1..points.len() - 1 { ... }`, running `r` further iterations
starting at index `i`. -/
def stage1Go (st : List ElevationPoint × ℕ × ℕ) (i r : ℕ) :
    List ElevationPoint × ℕ × ℕ :=
  match r with
  | 0 => st
  | r + 1 => stage1Go (stage1Step st i) (i + 1) r

/-- Stage 1 of `approximate_elevation_points`: the direction-persistence
loop over interior indices followed by forcing the last point to survive.
Returns the updated points and the survivor count. -/
def stage1 (pts : List ElevationPoint) : List ElevationPoint × ℕ :=
  let st := stage1Go (pts, 0, 0) 1 (pts.length - 1 - 1)
  (setSurv st.1 (pts.length - 1) true, st.2.2 + 1)

/-! ## Stage 2: slope filter (`approximate_elevation_points`, second loop). -/

/-- One iteration of the second loop of `approximate_elevation_points` at
index `i`.  `slope = (ele - prev_ele) * 100 / dist` with
`dist = Line::new(points[i].point, points[last_survived].point)`'s
haversine length. -/
def stage2Step (hd : GeoDist) (st : List ElevationPoint × ℕ × ℕ) (i : ℕ) :
    List ElevationPoint × ℕ × ℕ :=
  let pts := st.1
  let lastSurvived := st.2.1
  let count := st.2.2
  if survAt pts i = false then st
  else
    let slope := (elevAt pts i - elevAt pts lastSurvived) * 100 /
      hd (ptAt pts i) (ptAt pts lastSurvived)
    if |slope| > 70 then (setSurv pts i false, lastSurvived, count)
    else (pts, i, count + 1)

/-- The second loop of `approximate_elevation_points`. -/
def stage2Go (hd : GeoDist) (st : List ElevationPoint × ℕ × ℕ) (i r : ℕ) :
    List ElevationPoint × ℕ × ℕ :=
  match r with
  | 0 => st
  | r + 1 => stage2Go hd (stage2Step hd st i) (i + 1) r

/-- Stage 2 of `approximate_elevation_points`: the slope filter over
interior indices (cursor reset to 0).  Returns the updated points and the
survivor count. -/
def stage2 (hd : GeoDist) (pts : List ElevationPoint) : List ElevationPoint × ℕ :=
  let st := stage2Go hd (pts, 0, 0) 1 (pts.length - 1 - 1)
  (st.1, st.2.2)

/-! ## Profile rebuilder (`approximate_elevation_points`, third loop). -/

/-- One iteration of the rebuild loop of `approximate_elevation_points` at
index `i`; `pts` is the (read-only) filtered list, the state is the
accumulated new list and `last_survived`. -/
def rebuildStep (hd : GeoDist) (pts : List ElevationPoint)
    (st : List ElevationPoint × ℕ) (i : ℕ) : List ElevationPoint × ℕ :=
  if survAt pts i = false then st
  else
    (st.1 ++ [⟨ptAt pts i,
        if st.2 = 0 then 0 else hd (ptAt pts i) (ptAt pts st.2),
        elevAt pts i, false, true⟩],
      i)

/-- The rebuild loop: `for i in 0..points.len()`. -/
def rebuildGo (hd : GeoDist) (pts : List ElevationPoint)
    (st : List ElevationPoint × ℕ) (i r : ℕ) : List ElevationPoint × ℕ :=
  match r with
  | 0 => st
  | r + 1 => rebuildGo hd pts (rebuildStep hd pts st i) (i + 1) r

/-- The profile rebuilder: collects surviving points into a new compact
sequence with segment-relative distances. -/
def rebuild (hd : GeoDist) (pts : List ElevationPoint) : List ElevationPoint :=
  (rebuildGo hd pts ([], 0) 0 pts.length).1

/-- `approximate_elevation_points` of `suggest.rs`.  The Rust function
mutates its argument in place and returns `Ok(bool)`; every internal index
access is in range, so the embedding returns the final list together with
that boolean.  `SLOPE_THRESHOLD = 70.0`. -/
def approximate_elevation_points (hd : GeoDist) (pts : List ElevationPoint) :
    List ElevationPoint × Bool :=
  let s1 := stage1 pts
  if s1.2 < 2 then (s1.1, false)
  else
    let s2 := stage2 hd s1.1
    if s2.2 < 2 then (s2.1, false)
    else
      let p3 := setSurv (setSurv s2.1 0 true) (s2.1.length - 1) true
      (rebuild hd p3, true)

/-! ## Extremum selector (`find_maximum_extremum_between`). -/

/-- Squared version of `get_projection_dist` of `suggest.rs`: the clamped
point-to-segment projection distance from `(x, y)` to the segment
`(fromx, fromy)`–`(tox, toy)`, squared.  The source takes `.sqrt()` of
this value; since the source only compares the results with each other
and with the constant `7.0`, comparing squares against squares decides
exactly the same comparisons. -/
def get_projection_dist_sq (x y fromx fromy tox toy : ℚ) : ℚ :=
  let mDist := (fromx - tox) * (fromx - tox) + (fromy - toy) * (fromy - toy)
  let projection := (tox - fromx) * (x - fromx) + (toy - fromy) * (y - fromy)
  let pr : ℚ × ℚ :=
    if projection < 0 then (fromx, fromy)
    else if mDist ≤ projection then (tox, toy)
    else (fromx + (tox - fromx) * (projection / mDist),
          fromy + (toy - fromy) * (projection / mDist))
  (pr.1 - x) * (pr.1 - x) + (pr.2 - y) * (pr.2 - y)

/-- Squared deviation of interior point `i` from the chord `start`–`end`
in the (distance, elevation) plane — the square of the `md` value of
`find_maximum_extremum_between`. -/
def devSq (pts : List ElevationPoint) (s e i : ℕ) : ℚ :=
  get_projection_dist_sq (distAt pts i) (elevAt pts i)
    (distAt pts s) (elevAt pts s) (distAt pts e) (elevAt pts e)

/-- The scanning loop of `find_maximum_extremum_between`
(`for i in start + 1..end`), carrying `(max, max_diff)` (squared), running
`r` further iterations from index `i`.  `ELE_THRESHOLD = 7.0`, squared to
`49`. -/
def fmeScanGo (pts : List ElevationPoint) (s e : ℕ) (st : ℕ × ℚ) (i r : ℕ) : ℕ × ℚ :=
  match r with
  | 0 => st
  | r + 1 =>
    fmeScanGo pts s e (if st.2 < devSq pts s e i then (i, devSq pts s e i) else st) (i + 1) r

/-- The full scan of `find_maximum_extremum_between` over the interior of
`[s, e]`, starting from `(start, ELE_THRESHOLD)`. -/
def fmeScan (pts : List ElevationPoint) (s e : ℕ) : ℕ × ℚ :=
  fmeScanGo pts s e (s, 49) (s + 1) (e - (s + 1))

theorem fmeScanGo_fst_mem (pts : List ElevationPoint) (s e : ℕ) :
    ∀ r st i, (fmeScanGo pts s e st i r).1 = st.1 ∨
      (i ≤ (fmeScanGo pts s e st i r).1 ∧ (fmeScanGo pts s e st i r).1 < i + r) := by
  intro r
  induction r with
  | zero => intro st i; exact Or.inl rfl
  | succ r ih =>
    intro st i
    simp only [fmeScanGo]
    by_cases hc : st.2 < devSq pts s e i
    · rw [if_pos hc]
      rcases ih (i, devSq pts s e i) (i + 1) with h | h
      · simp only at h
        right; omega
      · right; omega
    · rw [if_neg hc]
      rcases ih st (i + 1) with h | h
      · left; exact h
      · right; omega

theorem fmeScan_fst_bounds (pts : List ElevationPoint) (s e : ℕ)
    (h : (fmeScan pts s e).1 ≠ s) :
    s < (fmeScan pts s e).1 ∧ (fmeScan pts s e).1 < e := by
  have h' := fmeScanGo_fst_mem pts s e (e - (s + 1)) (s, 49) (s + 1)
  unfold fmeScan at h ⊢
  rcases h' with h' | h'
  · simp only at h'
    exact absurd h' h
  · omega

/-- The recursion of `find_maximum_extremum_between`, made structural on
a fuel argument: when some interior point deviates from the chord by more
than `ELE_THRESHOLD = 7.0`, mark `points[max].extremum = true` and recurse
on `[start, max]` and `[max, end]`.  By `fmeScan_fst_bounds` the split
index lies strictly inside the span, so a fuel of the span width `e - s`
never runs out (each child span is strictly narrower). -/
def fmeGo : ℕ → ℕ → ℕ → List ElevationPoint → List ElevationPoint
  | 0, _, _, pts => pts
  | fuel + 1, s, e, pts =>
    let mx := (fmeScan pts s e).1
    if mx = s then pts
    else fmeGo fuel mx e (fmeGo fuel s mx (setExt pts mx true))

/-- `find_maximum_extremum_between` of `suggest.rs`.  The source signature
is `(start, end, &mut Vec<ElevationPoint>) -> eyre::Result<()>`; all its
index accesses are in range at every call site, so the embedding returns
the updated vector. -/
def find_maximum_extremum_between (s e : ℕ) (pts : List ElevationPoint) :
    List ElevationPoint :=
  fmeGo (e - s) s e pts

-- Equality of `Except` values is decidable; needed so that concrete runs
-- of the pipeline can be checked by `decide`.
deriving instance DecidableEq for Except

/-! ## `embed_from_gpx`: the statistics/aggregation driver.

The surrounding Discord/HTTP glue (link checks, metadata checks, embed
formatting, unit conversion) is out of scope; the embedding covers the
computation from `track.multilinestring()` (line 174) to the construction
of the numeric fields of the embed. -/

/-- The numeric results `embed_from_gpx` computes and puts into the embed
fields, together with the simplified profile it walks to get them. -/
structure GpxSummary where
  lengthMeters : ℚ
  gainMeters : ℚ
  lossMeters : ℚ
  minElevation : ℚ
  maxElevation : ℚ
  avgElevation : ℚ
  profile : List ElevationPoint
deriving DecidableEq

/-- Haversine length of one segment's linestring: the sum of consecutive
point-to-point distances (`geo`'s `Length::length::<Haversine>` on a
`LineString`). -/
def lineLength (hd : GeoDist) (s : List Waypoint) : ℚ :=
  ((s.zip s.tail).map (fun pr => hd pr.1.pt pr.2.pt)).sum

/-- `track.multilinestring().length::<Haversine>()`: the sum of the
per-segment linestring lengths. -/
def multiLineLength (hd : GeoDist) (t : Track) : ℚ :=
  (t.segments.map (lineLength hd)).sum

/-- Running state of the min/max/avg loop of `embed_from_gpx`:
`avg = (sum, count)`, `max_altitude`, `min_altitude`. -/
structure RunningStats where
  sum : ℚ
  count : ℕ
  maxAlt : ℚ
  minAlt : ℚ
deriving DecidableEq

/-- One step of the raw statistics loop of `embed_from_gpx` (lines
181–195): accumulate the average, then raise `max_altitude`, then lower
`min_altitude`; missing elevation is fatal. -/
def statsStep (st : RunningStats) (w : Waypoint) : Except String RunningStats :=
  match w.elevation with
  | none => .error "Waypoint does not contain elevation data"
  | some e =>
    .ok ⟨st.sum + e, st.count + 1,
      if st.maxAlt < e then e else st.maxAlt,
      if e < st.minAlt then e else st.minAlt⟩

/-- The inner loop `for point in segment.points.iter()`. -/
def statsLoopSeg (st : RunningStats) : List Waypoint → Except String RunningStats
  | [] => .ok st
  | w :: ws =>
    match statsStep st w with
    | .error msg => .error msg
    | .ok st2 => statsLoopSeg st2 ws

/-- The outer loop `for segment in &track.segments`. -/
def statsLoop (st : RunningStats) : List (List Waypoint) → Except String RunningStats
  | [] => .ok st
  | s :: ss =>
    match statsLoopSeg st s with
    | .error msg => .error msg
    | .ok st2 => statsLoop st2 ss

/-- The annotation fold of `embed_from_gpx` (lines 218–238): for each
window `(point[0], point[1])` of each segment, extend the cumulative
distance by the haversine step and push `point[1]`; missing elevation is
fatal. -/
def annotateLoop (hd : GeoDist) (st : List ElevationPoint × ℚ) :
    List (Waypoint × Waypoint) → Except String (List ElevationPoint × ℚ)
  | [] => .ok st
  | pr :: prs =>
    let d := st.2 + hd pr.1.pt pr.2.pt
    match pr.2.elevation with
    | none => .error "Waypoint does not have elevation data"
    | some e => annotateLoop hd (st.1 ++ [⟨pr.2.pt, d, e, false, false⟩], d) prs

/-- The in-segment consecutive windows of the track, in order:
`track.segments.iter().flat_map(|s| s.points.windows(2))`. -/
def trackWindows (t : Track) : List (Waypoint × Waypoint) :=
  (t.segments.map (fun s => s.zip s.tail)).flatten

/-- Lines 196–238 of `embed_from_gpx`: the initial `ElevationPoint` built
from the first point of the first segment (distance 0, `extremum = true`),
followed by the windows fold. -/
def buildElevationPoints (hd : GeoDist) (t : Track) :
    Except String (List ElevationPoint) :=
  match t.segments with
  | [] => .error "GPX track has no segments"
  | seg0 :: _ =>
    match seg0 with
    | [] => .error "GPX segment has no points"
    | w0 :: _ =>
      match w0.elevation with
      | none => .error "Waypoint does not have elevation data"
      | some e0 =>
        match annotateLoop hd ([⟨w0.pt, 0, e0, true, false⟩], 0) (trackWindows t) with
        | .error msg => .error msg
        | .ok st => .ok st.1

/-- One step of the gain/loss aggregation of `embed_from_gpx` (lines
254–261): state is `(gains, losses, prev_elevation_point)`; add a positive
delta to `gains`, otherwise its absolute value to `losses`, and advance
the previous point. -/
def aggStep (st : ℚ × ℚ × ElevationPoint) (q : ElevationPoint) :
    ℚ × ℚ × ElevationPoint :=
  let diff := q.elevation - st.2.2.elevation
  if diff > 0 then (st.1 + diff, st.2.1, q) else (st.1, st.2.1 + |diff|, q)

/-- The gain/loss aggregation of `embed_from_gpx` (lines 251–262): walk
the points after the first that are flagged `extremum`, accumulating
positive deltas into `gains` and `|negative deltas|` into `losses`. -/
def aggregateExtrema (pts : List ElevationPoint) : Except String (ℚ × ℚ) :=
  match pts with
  | [] => .error "Finding elevation points yeilded no results"
  | p :: rest =>
    let st := (rest.filter (fun q => q.extremum)).foldl aggStep (0, 0, p)
    .ok (st.1, st.2.1)

/-- Lines 239–250 of `embed_from_gpx`: run `approximate_elevation_points`
(its boolean outcome is discarded by the source, line 239), force the last
and then the first point's `extremum` flag, and run the extremum selector
over the whole list. -/
def profilePoints (hd : GeoDist) (pts0 : List ElevationPoint) : List ElevationPoint :=
  let pts1 := (approximate_elevation_points hd pts0).1
  let pts2 := setExt (setExt pts1 (pts1.length - 1) true) 0 true
  find_maximum_extremum_between 0 (pts2.length - 1) pts2

/-- The core of `embed_from_gpx` (lines 174–312): length, raw statistics,
distance annotation, two-stage filtering, endpoint marking, recursive
extremum selection and gain/loss aggregation.  The AllTrails/Utah metadata
checks and the embed formatting around it are I/O glue and out of scope.
The emptiness check models the `last_mut()/first_mut()` `ok_or_eyre`s of
lines 241–248. -/
def embed_from_gpx (hd : GeoDist) (t : Track) : Except String GpxSummary :=
  let length := multiLineLength hd t
  match statsLoop ⟨0, 0, 0, f64MAX⟩ t.segments with
  | .error msg => .error msg
  | .ok stats =>
    match buildElevationPoints hd t with
    | .error msg => .error msg
    | .ok pts0 =>
      match (approximate_elevation_points hd pts0).1 with
      | [] => .error "Finding elevation points yeilded no results"
      | _ :: _ =>
        match aggregateExtrema (profilePoints hd pts0) with
        | .error msg => .error msg
        | .ok gl =>
          .ok ⟨length, gl.1, gl.2, stats.minAlt, stats.maxAlt,
            stats.sum / (stats.count : ℚ), profilePoints hd pts0⟩

/-! ## Spec-side definitions.

These follow the specification's wording and are compared against the
definitions embedded from the source. -/

/-- Spec-style length of a polyline: the sum of distances between
consecutive points. -/
def pathLength (hd : GeoDist) : List Pt → ℚ
  | a :: b :: rest => hd a b + pathLength hd (b :: rest)
  | _ => 0

/-- All waypoints of the track, segments concatenated in order. -/
def allWaypoints (t : Track) : List Waypoint := t.segments.flatten

/-- The elevations of all raw waypoints, in order. -/
def rawElevs (t : Track) : List ℚ := (allWaypoints t).filterMap (fun w => w.elevation)

/-- Every waypoint of the track carries an elevation value. -/
def allElevations (t : Track) : Bool := (allWaypoints t).all (fun w => w.elevation.isSome)

/-- The largest index `j < i` whose `survived` flag is set, or `0` when
there is none — the spec's `lastSurvived` cursor, read off the final
flags. -/
def lastMarkedBefore (pts : List ElevationPoint) (i : ℕ) : ℕ :=
  ((List.range i).filter (fun j => survAt pts j)).getLastD 0

/-- Indices of the surviving points, ascending. -/
def survivorIdxs (pts : List ElevationPoint) : List ℕ :=
  (List.range pts.length).filter (fun i => survAt pts i)

/-- Spec-style description of the rebuilt profile, amended by the
behaviour of the `last_survived == 0` guard: the surviving points in
original order, where the rebuilt point at position `k` keeps its
geographic point and elevation, gets distance `0` for `k ≤ 1` and the
haversine distance from the immediately preceding survivor for `k ≥ 2`,
and has `extremum = false`, `survived = true`. -/
def rebuildSpec (hd : GeoDist) (pts : List ElevationPoint) : List ElevationPoint :=
  (survivorIdxs pts).mapIdx (fun k i =>
    ⟨ptAt pts i,
     if k ≤ 1 then 0 else hd (ptAt pts i) (ptAt pts ((survivorIdxs pts).getD (k - 1) 0)),
     elevAt pts i, false, true⟩)

/-- The spec's description of the index the Extremum Selector splits a
span `[s, e]` at: an interior index of maximal deviation from the chord
(squared deviations compared, first maximiser on ties), whose deviation
exceeds the threshold `7.0` (squared: `49`). -/
def chosenMax (pts : List ElevationPoint) (s e m : ℕ) : Prop :=
  s < m ∧ m < e ∧ 49 < devSq pts s e m ∧
    (∀ j, s < j → j < e → devSq pts s e j ≤ devSq pts s e m) ∧
    (∀ j, s < j → j < m → devSq pts s e j < devSq pts s e m)

/-- The spec's recursive Douglas–Peucker marking relation on the
(distance, elevation) curve: `DPmark pts s e i` holds iff the recursive
procedure on span `[s, e]` marks interior index `i` as an extremum. -/
inductive DPmark (pts : List ElevationPoint) : ℕ → ℕ → ℕ → Prop
  | here {s e m : ℕ} : chosenMax pts s e m → DPmark pts s e m
  | left {s e m i : ℕ} : chosenMax pts s e m → DPmark pts s m i → DPmark pts s e i
  | right {s e m i : ℕ} : chosenMax pts s e m → DPmark pts m e i → DPmark pts s e i

/-! ## Concrete inputs for witnesses and counterexamples. -/

/-- A waypoint at `(x, y)` with elevation `e`. -/
def wp (x y e : ℚ) : Waypoint := ⟨(x, y), some e⟩

/-- A single-segment, single-waypoint track. -/
def tOnePoint : Track := ⟨[[wp 0 0 5]]⟩

/-- A two-segment track with a geographic gap between the segments. -/
def tTwoSeg : Track := ⟨[[wp 0 0 0, wp 10 0 0], [wp 30 0 0, wp 40 0 0]]⟩

/-- A track whose elevations are all negative. -/
def tNeg : Track := ⟨[[wp 0 0 (-5), wp 10 0 (-3)]]⟩

/-- A two-point ascending track. -/
def tTwoPt : Track := ⟨[[wp 0 0 0, wp 20 0 10]]⟩

/-- A five-point track on which both filter stages succeed with two
interior survivors. -/
def tFive : Track := ⟨[[wp 0 0 0, wp 20 0 10, wp 40 0 20, wp 60 0 30, wp 80 0 5]]⟩

/-- A flat three-point track: Stage 1 leaves fewer than 2 survivors. -/
def tFlat : Track := ⟨[[wp 0 0 0, wp 10 0 0, wp 20 0 0]]⟩

/-- The pure content of one `statsStep` on a present elevation `e`. -/
def statsPure (st : RunningStats) (e : ℚ) : RunningStats :=
  ⟨st.sum + e, st.count + 1,
    if st.maxAlt < e then e else st.maxAlt,
    if e < st.minAlt then e else st.minAlt⟩

/-- Closed form of the points pushed by `annotateLoop` when every window's
second waypoint carries an elevation, starting from cumulative distance
`d`. -/
def annotatePure (hd : GeoDist) (d : ℚ) :
    List (Waypoint × Waypoint) → List ElevationPoint
  | [] => []
  | pr :: prs =>
    ⟨pr.2.pt, d + hd pr.1.pt pr.2.pt, pr.2.elevation.getD 0, false, false⟩ ::
      annotatePure hd (d + hd pr.1.pt pr.2.pt) prs

/-- Shorthand for a concrete elevation point on the x-axis (used by
witnesses): position `(x, 0)`, distance `d`, elevation `e`, `extremum`
false, `survived` as given. -/
def ep (x d e : ℚ) (s : Bool) : ElevationPoint := ⟨(x, 0), d, e, false, s⟩

/-- A three-point strictly ascending profile with no flags set. -/
def pts3 : List ElevationPoint :=
  [ep 0 0 0 false, ep 10 10 10 false, ep 20 20 20 false]

/-- A five-point profile whose two interior ascending points carry the
`survived` flag, as Stage 1 would leave them. -/
def pts5 : List ElevationPoint :=
  [ep 0 0 0 false, ep 20 20 10 true, ep 40 40 20 true,
    ep 60 60 30 false, ep 80 80 5 false]

/-- The annotated point list of the flat three-point track `tFlat`. -/
def ptsFlat : List ElevationPoint :=
  [⟨(0, 0), 0, 0, true, false⟩, ⟨(10, 0), 10, 0, false, false⟩,
    ⟨(20, 0), 20, 0, false, false⟩]

/-! ## Basic lemmas about flag updates. -/

theorem getD_set_point (l : List ElevationPoint) (i j : ℕ) (a : ElevationPoint) :
    (l.set i a).getD j default =
      if i = j ∧ i < l.length then a else l.getD j default := by
  simp only [List.getD_eq_getElem?_getD, List.getElem?_set]
  by_cases h1 : i = j
  · subst h1
    by_cases h2 : i < l.length
    · simp [h2]
    · have : l[i]? = none := by
        rw [List.getElem?_eq_none]
        omega
      simp [h2, this]
  · simp [h1]

theorem length_setSurv (pts : List ElevationPoint) (i : ℕ) (b : Bool) :
    (setSurv pts i b).length = pts.length := List.length_set pts i _

theorem length_setExt (pts : List ElevationPoint) (i : ℕ) (b : Bool) :
    (setExt pts i b).length = pts.length := List.length_set pts i _

theorem survAt_setSurv (pts : List ElevationPoint) (i j : ℕ) (b : Bool) :
    survAt (setSurv pts i b) j =
      if i = j ∧ i < pts.length then b else survAt pts j := by
  simp only [survAt, setSurv, getD_set_point]
  split <;> rfl

theorem nonSurvData_setSurv (pts : List ElevationPoint) (i j : ℕ) (b : Bool) :
    nonSurvData ((setSurv pts i b).getD j default) =
      nonSurvData (pts.getD j default) := by
  simp only [setSurv, getD_set_point]
  split_ifs with h
  · rcases h with ⟨h1, _⟩
    subst h1
    rfl
  · rfl

theorem elevAt_setSurv (pts : List ElevationPoint) (i j : ℕ) (b : Bool) :
    elevAt (setSurv pts i b) j = elevAt pts j := by
  have := nonSurvData_setSurv pts i j b
  simp only [nonSurvData, Prod.mk.injEq] at this
  exact this.2.2.1

theorem distAt_setSurv (pts : List ElevationPoint) (i j : ℕ) (b : Bool) :
    distAt (setSurv pts i b) j = distAt pts j := by
  have := nonSurvData_setSurv pts i j b
  simp only [nonSurvData, Prod.mk.injEq] at this
  exact this.2.1

theorem ptAt_setSurv (pts : List ElevationPoint) (i j : ℕ) (b : Bool) :
    ptAt (setSurv pts i b) j = ptAt pts j := by
  have := nonSurvData_setSurv pts i j b
  simp only [nonSurvData, Prod.mk.injEq] at this
  exact this.1

theorem extAt_setSurv (pts : List ElevationPoint) (i j : ℕ) (b : Bool) :
    extAt (setSurv pts i b) j = extAt pts j := by
  have := nonSurvData_setSurv pts i j b
  simp only [nonSurvData, Prod.mk.injEq] at this
  exact this.2.2.2

theorem extAt_setExt (pts : List ElevationPoint) (i j : ℕ) (b : Bool) :
    extAt (setExt pts i b) j =
      if i = j ∧ i < pts.length then b else extAt pts j := by
  simp only [extAt, setExt, getD_set_point]
  split <;> rfl

theorem coreSurv_setExt (pts : List ElevationPoint) (i j : ℕ) (b : Bool) :
    coreData ((setExt pts i b).getD j default) = coreData (pts.getD j default) ∧
      survAt (setExt pts i b) j = survAt pts j := by
  simp only [setExt, coreData, survAt, getD_set_point]
  split_ifs with h
  · rcases h with ⟨h1, _⟩
    subst h1
    exact ⟨rfl, rfl⟩
  · exact ⟨rfl, rfl⟩

theorem elevAt_setExt (pts : List ElevationPoint) (i j : ℕ) (b : Bool) :
    elevAt (setExt pts i b) j = elevAt pts j := by
  have := (coreSurv_setExt pts i j b).1
  simp only [coreData, Prod.mk.injEq] at this
  exact this.2.2

theorem distAt_setExt (pts : List ElevationPoint) (i j : ℕ) (b : Bool) :
    distAt (setExt pts i b) j = distAt pts j := by
  have := (coreSurv_setExt pts i j b).1
  simp only [coreData, Prod.mk.injEq] at this
  exact this.2.1

theorem ptAt_setExt (pts : List ElevationPoint) (i j : ℕ) (b : Bool) :
    ptAt (setExt pts i b) j = ptAt pts j := by
  have := (coreSurv_setExt pts i j b).1
  simp only [coreData, Prod.mk.injEq] at this
  exact this.1

theorem survAt_setExt (pts : List ElevationPoint) (i j : ℕ) (b : Bool) :
    survAt (setExt pts i b) j = survAt pts j :=
  (coreSurv_setExt pts i j b).2

/-! ## Sanity: the `f64::MAX` literal. -/

theorem f64MAX_eq : f64MAX = (2 ^ 53 - 1) * 2 ^ 971 := by norm_num [f64MAX]

/-! ## The raw statistics loop. -/

theorem statsLoopSeg_eq (s : List Waypoint) : ∀ st : RunningStats,
    statsLoopSeg st s =
      if s.all (fun w => w.elevation.isSome) then
        .ok ((s.filterMap (fun w => w.elevation)).foldl statsPure st)
      else .error "Waypoint does not contain elevation data" := by
  induction s with
  | nil => intro st; simp [statsLoopSeg]
  | cons w ws ih =>
    intro st
    cases hw : w.elevation with
    | none => simp [statsLoopSeg, statsStep, hw]
    | some e => simp [statsLoopSeg, statsStep, hw, ih, statsPure]

theorem statsLoop_eq (ss : List (List Waypoint)) : ∀ st : RunningStats,
    statsLoop st ss =
      if ss.flatten.all (fun w => w.elevation.isSome) then
        .ok ((ss.flatten.filterMap (fun w => w.elevation)).foldl statsPure st)
      else .error "Waypoint does not contain elevation data" := by
  induction ss with
  | nil => intro st; simp [statsLoop]
  | cons s ss ih =>
    intro st
    rw [statsLoop, statsLoopSeg_eq]
    by_cases hs : s.all (fun w => w.elevation.isSome)
    · rw [if_pos hs]
      show statsLoop _ ss = _
      rw [ih]
      simp [hs, List.all_append, List.filterMap_append, List.foldl_append]
    · rw [if_neg hs]
      simp [hs, List.all_append]

/-! ## The annotation fold. -/

theorem annotateLoop_eq_ok (hd : GeoDist) (prs : List (Waypoint × Waypoint)) :
    ∀ (l : List ElevationPoint) (d : ℚ),
    prs.all (fun pr => pr.2.elevation.isSome) = true →
    annotateLoop hd (l, d) prs =
      .ok (l ++ annotatePure hd d prs,
        d + (prs.map (fun pr => hd pr.1.pt pr.2.pt)).sum) := by
  induction prs with
  | nil => intro l d _; simp [annotateLoop, annotatePure]
  | cons pr prs ih =>
    intro l d hall
    simp only [List.all_cons, Bool.and_eq_true] at hall
    obtain ⟨e, he⟩ := Option.isSome_iff_exists.mp hall.1
    simp only [annotateLoop, he]
    rw [ih _ _ hall.2]
    simp [annotatePure, he, add_assoc]

theorem annotateLoop_eq_err (hd : GeoDist) (prs : List (Waypoint × Waypoint)) :
    ∀ (l : List ElevationPoint) (d : ℚ),
    ¬ (prs.all (fun pr => pr.2.elevation.isSome) = true) →
    annotateLoop hd (l, d) prs = .error "Waypoint does not have elevation data" := by
  induction prs with
  | nil => intro l d h; simp at h
  | cons pr prs ih =>
    intro l d hall
    simp only [List.all_cons, Bool.and_eq_true] at hall
    cases he : pr.2.elevation with
    | none => simp only [annotateLoop, he]
    | some e =>
      simp only [annotateLoop, he]
      apply ih
      intro hc
      exact hall ⟨by rw [he]; rfl, hc⟩

theorem annotateLoop_acc_ne_nil (hd : GeoDist) (prs : List (Waypoint × Waypoint)) :
    ∀ (l : List ElevationPoint) (d : ℚ) (st : List ElevationPoint × ℚ),
    l ≠ [] → annotateLoop hd (l, d) prs = .ok st → st.1 ≠ [] := by
  induction prs with
  | nil =>
    intro l d st hl h
    rw [annotateLoop] at h
    cases h
    exact hl
  | cons pr prs ih =>
    intro l d st hl h
    cases he : pr.2.elevation with
    | none =>
      simp only [annotateLoop, he] at h
      exact Except.noConfusion h
    | some e =>
      simp only [annotateLoop, he] at h
      exact ih _ _ _ (by simp) h

theorem trackWindows_mem_snd (t : Track) (pr : Waypoint × Waypoint)
    (h : pr ∈ trackWindows t) : pr.2 ∈ allWaypoints t := by
  simp only [trackWindows, List.mem_flatten, List.mem_map] at h
  obtain ⟨l, ⟨s, hs, hl⟩, hpr⟩ := h
  subst hl
  have h2 := (List.of_mem_zip hpr).2
  exact List.mem_flatten.mpr ⟨s, hs, List.mem_of_mem_tail h2⟩

theorem buildElevationPoints_eq_ok (hd : GeoDist) (t : Track)
    (w0 : Waypoint) (s0 : List Waypoint) (rest : List (List Waypoint))
    (hseg : t.segments = (w0 :: s0) :: rest)
    (hall : allElevations t = true) :
    buildElevationPoints hd t =
      .ok (⟨w0.pt, 0, w0.elevation.getD 0, true, false⟩ ::
        annotatePure hd 0 (trackWindows t)) := by
  have hw0 : w0 ∈ allWaypoints t := by
    simp [allWaypoints, hseg]
  have hw0some : w0.elevation.isSome = true := by
    have := List.all_eq_true.mp hall
    exact this w0 hw0
  obtain ⟨e0, he0⟩ := Option.isSome_iff_exists.mp hw0some
  have hwin : (trackWindows t).all (fun pr => pr.2.elevation.isSome) = true := by
    rw [List.all_eq_true]
    intro pr hpr
    exact List.all_eq_true.mp hall pr.2 (trackWindows_mem_snd t pr hpr)
  simp only [buildElevationPoints, hseg, he0]
  rw [annotateLoop_eq_ok hd (trackWindows t) _ _ hwin]
  simp [he0]

theorem buildElevationPoints_ok_shape (hd : GeoDist) (t : Track)
    (pts : List ElevationPoint) (h : buildElevationPoints hd t = .ok pts) :
    t.segments ≠ [] ∧ t.segments.headD [] ≠ [] ∧ pts ≠ [] := by
  cases hseg : t.segments with
  | nil =>
    simp only [buildElevationPoints, hseg] at h
    exact Except.noConfusion h
  | cons seg0 rest =>
    cases hs0 : seg0 with
    | nil =>
      simp only [buildElevationPoints, hseg, hs0] at h
      exact Except.noConfusion h
    | cons w0 s0 =>
      cases he : w0.elevation with
      | none =>
        simp only [buildElevationPoints, hseg, hs0, he] at h
        exact Except.noConfusion h
      | some e0 =>
        simp only [buildElevationPoints, hseg, hs0, he] at h
        refine ⟨by simp [hseg], by simp [hseg, hs0], ?_⟩
        cases hann : annotateLoop hd ([⟨w0.pt, 0, e0, true, false⟩], 0)
            (trackWindows t) with
        | error msg =>
          rw [hann] at h
          exact Except.noConfusion h
        | ok st =>
          rw [hann] at h
          have hpts := Except.ok.inj h
          rw [← hpts]
          exact annotateLoop_acc_ne_nil hd (trackWindows t) _ _ _ (by simp) hann

/-! ## Length preservation through the pipeline. -/

theorem stage1Step_length (st : List ElevationPoint × ℕ × ℕ) (i : ℕ) :
    (stage1Step st i).1.length = st.1.length := by
  simp only [stage1Step]
  split_ifs <;> simp [length_setSurv]

theorem stage1Go_length (r : ℕ) : ∀ (st : List ElevationPoint × ℕ × ℕ) (i : ℕ),
    (stage1Go st i r).1.length = st.1.length := by
  induction r with
  | zero => intro st i; rfl
  | succ r ih =>
    intro st i
    rw [stage1Go, ih]
    exact stage1Step_length st i

theorem stage1_length (pts : List ElevationPoint) :
    (stage1 pts).1.length = pts.length := by
  rw [stage1]
  simp only [length_setSurv]
  exact stage1Go_length _ _ _

theorem stage2Step_length (hd : GeoDist) (st : List ElevationPoint × ℕ × ℕ) (i : ℕ) :
    (stage2Step hd st i).1.length = st.1.length := by
  simp only [stage2Step]
  split_ifs <;> simp [length_setSurv]

theorem stage2Go_length (hd : GeoDist) (r : ℕ) :
    ∀ (st : List ElevationPoint × ℕ × ℕ) (i : ℕ),
    (stage2Go hd st i r).1.length = st.1.length := by
  induction r with
  | zero => intro st i; rfl
  | succ r ih =>
    intro st i
    rw [stage2Go, ih]
    exact stage2Step_length hd st i

theorem stage2_length (hd : GeoDist) (pts : List ElevationPoint) :
    (stage2 hd pts).1.length = pts.length := by
  rw [stage2]
  exact stage2Go_length hd _ _ _

theorem fmeGo_length (fuel : ℕ) : ∀ (s e : ℕ) (pts : List ElevationPoint),
    (fmeGo fuel s e pts).length = pts.length := by
  induction fuel with
  | zero => intro s e pts; rfl
  | succ fuel ih =>
    intro s e pts
    simp only [fmeGo]
    split_ifs with h
    · rfl
    · rw [ih, ih, length_setExt]

theorem rebuildGo_acc_ne_nil (hd : GeoDist) (pts : List ElevationPoint) (r : ℕ) :
    ∀ (st : List ElevationPoint × ℕ) (i : ℕ),
    st.1 ≠ [] → (rebuildGo hd pts st i r).1 ≠ [] := by
  induction r with
  | zero => intro st i h; exact h
  | succ r ih =>
    intro st i h
    rw [rebuildGo]
    apply ih
    rw [rebuildStep]
    split_ifs with hs
    · exact h
    · simp
    · simp

theorem rebuild_ne_nil (hd : GeoDist) (pts : List ElevationPoint)
    (h0 : survAt pts 0 = true) (hne : pts ≠ []) : rebuild hd pts ≠ [] := by
  rw [rebuild]
  cases hl : pts.length with
  | zero => exact absurd (List.length_eq_zero.mp hl) hne
  | succ r =>
    rw [rebuildGo]
    apply rebuildGo_acc_ne_nil
    rw [rebuildStep, h0]
    simp

theorem approximate_ne_nil (hd : GeoDist) (pts : List ElevationPoint)
    (hne : pts ≠ []) : (approximate_elevation_points hd pts).1 ≠ [] := by
  have hlen : 0 < pts.length := List.length_pos.mpr hne
  have h1len : (stage1 pts).1.length = pts.length := stage1_length pts
  have h2len : (stage2 hd (stage1 pts).1).1.length = pts.length := by
    rw [stage2_length, h1len]
  rw [approximate_elevation_points]
  simp only
  split_ifs with hc1 hc2
  · intro hc
    rw [hc] at h1len
    simp at h1len
    omega
  · intro hc
    rw [hc] at h2len
    simp at h2len
    omega
  · apply rebuild_ne_nil
    · rw [survAt_setSurv]
      split_ifs with hx
      · rfl
      · rw [survAt_setSurv]
        rw [if_pos ⟨rfl, by omega⟩]
    · intro hc
      have := congrArg List.length hc
      simp only [length_setSurv, List.length_nil] at this
      omega

theorem aggregateExtrema_ok_of_ne_nil (pts : List ElevationPoint) (h : pts ≠ []) :
    ∃ gl, aggregateExtrema pts = .ok gl := by
  cases pts with
  | nil => exact absurd rfl h
  | cons p rest => exact ⟨_, rfl⟩

/-! ## Inversion of a successful `embed_from_gpx`. -/

theorem embed_from_gpx_ok_inv (hd : GeoDist) (t : Track) (r : GpxSummary)
    (h : embed_from_gpx hd t = .ok r) :
    ∃ stats pts0 gl,
      statsLoop ⟨0, 0, 0, f64MAX⟩ t.segments = .ok stats ∧
      buildElevationPoints hd t = .ok pts0 ∧
      aggregateExtrema (profilePoints hd pts0) = .ok gl ∧
      r = ⟨multiLineLength hd t, gl.1, gl.2, stats.minAlt, stats.maxAlt,
        stats.sum / (stats.count : ℚ), profilePoints hd pts0⟩ := by
  rw [embed_from_gpx] at h
  cases hst : statsLoop ⟨0, 0, 0, f64MAX⟩ t.segments with
  | error msg =>
    rw [hst] at h
    exact Except.noConfusion h
  | ok stats =>
    rw [hst] at h
    simp only [] at h
    cases hb : buildElevationPoints hd t with
    | error msg =>
      rw [hb] at h
      exact Except.noConfusion h
    | ok pts0 =>
      rw [hb] at h
      simp only [] at h
      cases hp : (approximate_elevation_points hd pts0).1 with
      | nil =>
        rw [hp] at h
        exact Except.noConfusion h
      | cons p ps =>
        rw [hp] at h
        simp only [] at h
        cases hagg : aggregateExtrema (profilePoints hd pts0) with
        | error msg =>
          rw [hagg] at h
          exact Except.noConfusion h
        | ok gl =>
          rw [hagg] at h
          have h2 : Except.ok (⟨multiLineLength hd t, gl.1, gl.2, stats.minAlt,
              stats.maxAlt, stats.sum / (stats.count : ℚ),
              profilePoints hd pts0⟩ : GpxSummary) = Except.ok r := h
          exact ⟨stats, pts0, gl, rfl, rfl, hagg, (Except.ok.inj h2).symm⟩

theorem embed_from_gpx_ok_of_valid (hd : GeoDist) (t : Track)
    (stats : RunningStats) (pts0 : List ElevationPoint)
    (hst : statsLoop ⟨0, 0, 0, f64MAX⟩ t.segments = .ok stats)
    (hb : buildElevationPoints hd t = .ok pts0) (h0 : pts0 ≠ []) :
    ∃ gl, aggregateExtrema (profilePoints hd pts0) = .ok gl ∧
      embed_from_gpx hd t =
        .ok ⟨multiLineLength hd t, gl.1, gl.2, stats.minAlt, stats.maxAlt,
          stats.sum / (stats.count : ℚ), profilePoints hd pts0⟩ := by
  have hp1 : (approximate_elevation_points hd pts0).1 ≠ [] :=
    approximate_ne_nil hd pts0 h0
  have hp3 : profilePoints hd pts0 ≠ [] := by
    rw [profilePoints]
    intro hc
    have := congrArg List.length hc
    rw [find_maximum_extremum_between, fmeGo_length, length_setExt, length_setExt]
      at this
    simp at this
    exact hp1 this
  obtain ⟨gl, hagg⟩ := aggregateExtrema_ok_of_ne_nil _ hp3
  refine ⟨gl, hagg, ?_⟩
  rw [embed_from_gpx, hst]
  simp only []
  rw [hb]
  simp only []
  cases hp : (approximate_elevation_points hd pts0).1 with
  | nil => exact absurd hp hp1
  | cons p ps =>
    simp only []
    rw [hagg]

/-- C10, counterexample: a track whose only segment contains exactly one
waypoint does NOT abort: `embed_from_gpx` returns a full summary (length
0, gain/loss 0, min = max = avg = the single elevation).  The claim's
`EmptyOrTooShortTrack` fatal error does not exist in the code. -/
theorem claim10_counterexample :
    embed_from_gpx taxiDist tOnePoint =
      .ok ⟨0, 0, 0, 5, 5, 5, [⟨(0, 0), 0, 5, true, true⟩]⟩ := by
  with_unfolding_all decide

/-- C10, amended: `embed_from_gpx` aborts with a fatal error exactly when
the track has no segments, its first segment has no points, or some
waypoint lacks elevation data.  A track with one single waypoint (and in
general any track with fewer than 2 waypoints but a nonempty first
segment) is NOT rejected: the computation still produces a full Result. -/
theorem claim10_validity (hd : GeoDist) (t : Track) :
    (embed_from_gpx hd t).isOk = true ↔
      (t.segments ≠ [] ∧ t.segments.headD [] ≠ [] ∧ allElevations t = true) := by
  constructor
  · intro h
    obtain ⟨r, hr⟩ : ∃ r, embed_from_gpx hd t = .ok r := by
      cases he : embed_from_gpx hd t with
      | error msg =>
        rw [he] at h
        exact Bool.noConfusion h
      | ok r => exact ⟨r, rfl⟩
    obtain ⟨stats, pts0, gl, hst, hb, hagg, hr'⟩ := embed_from_gpx_ok_inv hd t r hr
    obtain ⟨hseg, hhead, hpts⟩ := buildElevationPoints_ok_shape hd t pts0 hb
    refine ⟨hseg, hhead, ?_⟩
    by_contra hall
    have herr : statsLoop ⟨0, 0, 0, f64MAX⟩ t.segments =
        .error "Waypoint does not contain elevation data" := by
      rw [statsLoop_eq, if_neg]
      exact fun hc => hall hc
    rw [herr] at hst
    exact Except.noConfusion hst
  · rintro ⟨h1, h2, h3⟩
    have h3' : (t.segments.flatten.all fun w => w.elevation.isSome) = true := h3
    have hst := statsLoop_eq t.segments ⟨0, 0, 0, f64MAX⟩
    rw [if_pos h3'] at hst
    cases hseg : t.segments with
    | nil => exact absurd hseg h1
    | cons seg0 rest =>
      cases hs0 : seg0 with
      | nil =>
        rw [hseg, hs0] at h2
        simp at h2
      | cons w0 s0 =>
        have hb := buildElevationPoints_eq_ok hd t w0 s0 rest (by rw [hseg, hs0]) h3
        obtain ⟨gl, hagg, hok⟩ :=
          embed_from_gpx_ok_of_valid hd t _ _ hst hb (by simp)
        rw [hok]
        rfl

/-! ## C1: track length. -/

theorem lineLength_eq_pathLength (hd : GeoDist) (s : List Waypoint) :
    lineLength hd s = pathLength hd (s.map (fun w => w.pt)) := by
  induction s with
  | nil => rfl
  | cons a t ih =>
    cases t with
    | nil => rfl
    | cons b t2 =>
      calc lineLength hd (a :: b :: t2)
          = hd a.pt b.pt + lineLength hd (b :: t2) := by
            simp [lineLength]
        _ = hd a.pt b.pt + pathLength hd ((b :: t2).map (fun w => w.pt)) := by
            rw [ih]
        _ = pathLength hd ((a :: b :: t2).map (fun w => w.pt)) := rfl

/-- C1, counterexample: for a track of two segments (with a geographic gap
between them), `lengthMeters` is 20 while the sum of haversine distances
between consecutive raw waypoints of the concatenated track is 40 — the
cross-segment gap is not part of the computed length, so the claim's
equality fails on multi-segment tracks. -/
theorem claim1_counterexample :
    (embed_from_gpx taxiDist tTwoSeg).map (fun r => r.lengthMeters) = .ok 20 ∧
      pathLength taxiDist ((allWaypoints tTwoSeg).map (fun w => w.pt)) = 40 := by
  with_unfolding_all decide

/-- C1, amended: for every track on which the computation succeeds,
`lengthMeters` equals the sum, over the segments, of the haversine
distances between consecutive raw waypoints within each segment
(cross-segment gaps excluded); the value is derived from the raw
multilinestring before any filtering, so it never depends on the
filtering/simplification outcome. -/
theorem claim1_length_per_segment (hd : GeoDist) (t : Track) (r : GpxSummary)
    (h : embed_from_gpx hd t = .ok r) :
    r.lengthMeters =
      (t.segments.map (fun s => pathLength hd (s.map (fun w => w.pt)))).sum := by
  obtain ⟨stats, pts0, gl, hst, hb, hagg, hr⟩ := embed_from_gpx_ok_inv hd t r h
  rw [hr]
  show multiLineLength hd t = _
  rw [multiLineLength]
  have hfun : lineLength hd = fun s => pathLength hd (s.map (fun w => w.pt)) :=
    funext (lineLength_eq_pathLength hd)
  rw [hfun]

/-- C1, witness: the amended length theorem applied to the one-point track. -/
theorem claim1_length_witness :
    embed_from_gpx taxiDist tOnePoint =
        .ok ⟨0, 0, 0, 5, 5, 5, [⟨(0, 0), 0, 5, true, true⟩]⟩ ∧
      (⟨0, 0, 0, 5, 5, 5, [⟨(0, 0), 0, 5, true, true⟩]⟩ : GpxSummary).lengthMeters =
        (tOnePoint.segments.map
          (fun s => pathLength taxiDist (s.map (fun w => w.pt)))).sum :=
  ⟨by with_unfolding_all decide,
    claim1_length_per_segment taxiDist tOnePoint _ (by with_unfolding_all decide)⟩

/-! ## C6: raw min/max/avg statistics. -/

theorem statsPure_foldl_sum (l : List ℚ) : ∀ st : RunningStats,
    (l.foldl statsPure st).sum = st.sum + l.sum := by
  induction l with
  | nil => intro st; simp
  | cons e l ih =>
    intro st
    rw [List.foldl_cons, ih]
    simp only [statsPure, List.sum_cons]
    ring

theorem statsPure_foldl_count (l : List ℚ) : ∀ st : RunningStats,
    (l.foldl statsPure st).count = st.count + l.length := by
  induction l with
  | nil => intro st; simp
  | cons e l ih =>
    intro st
    rw [List.foldl_cons, ih]
    simp only [statsPure, List.length_cons]
    omega

theorem statsPure_foldl_max_ge (l : List ℚ) : ∀ st : RunningStats,
    st.maxAlt ≤ (l.foldl statsPure st).maxAlt ∧
      ∀ e ∈ l, e ≤ (l.foldl statsPure st).maxAlt := by
  induction l with
  | nil => intro st; simp
  | cons e l ih =>
    intro st
    rw [List.foldl_cons]
    obtain ⟨h1, h2⟩ := ih (statsPure st e)
    have hstep : st.maxAlt ≤ (statsPure st e).maxAlt ∧ e ≤ (statsPure st e).maxAlt := by
      simp only [statsPure]
      split_ifs with hc
      · exact ⟨le_of_lt hc, le_refl e⟩
      · exact ⟨le_refl _, le_of_not_lt hc⟩
    refine ⟨le_trans hstep.1 h1, ?_⟩
    intro x hx
    rcases List.mem_cons.mp hx with hx | hx
    · subst hx
      exact le_trans hstep.2 h1
    · exact h2 x hx

theorem statsPure_foldl_max_mem (l : List ℚ) : ∀ st : RunningStats,
    (l.foldl statsPure st).maxAlt = st.maxAlt ∨ (l.foldl statsPure st).maxAlt ∈ l := by
  induction l with
  | nil => intro st; exact Or.inl rfl
  | cons e l ih =>
    intro st
    rw [List.foldl_cons]
    rcases ih (statsPure st e) with h | h
    · rw [h]
      simp only [statsPure]
      split_ifs with hc
      · exact Or.inr (List.mem_cons_self e l)
      · exact Or.inl rfl
    · exact Or.inr (List.mem_cons_of_mem e h)

theorem statsPure_foldl_min_le (l : List ℚ) : ∀ st : RunningStats,
    (l.foldl statsPure st).minAlt ≤ st.minAlt ∧
      ∀ e ∈ l, (l.foldl statsPure st).minAlt ≤ e := by
  induction l with
  | nil => intro st; simp
  | cons e l ih =>
    intro st
    rw [List.foldl_cons]
    obtain ⟨h1, h2⟩ := ih (statsPure st e)
    have hstep : (statsPure st e).minAlt ≤ st.minAlt ∧ (statsPure st e).minAlt ≤ e := by
      simp only [statsPure]
      split_ifs with hc
      · exact ⟨le_of_lt hc, le_refl e⟩
      · exact ⟨le_refl _, le_of_not_lt hc⟩
    refine ⟨le_trans h1 hstep.1, ?_⟩
    intro x hx
    rcases List.mem_cons.mp hx with hx | hx
    · subst hx
      exact le_trans h1 hstep.2
    · exact h2 x hx

theorem statsPure_foldl_min_mem (l : List ℚ) : ∀ st : RunningStats,
    (l.foldl statsPure st).minAlt = st.minAlt ∨ (l.foldl statsPure st).minAlt ∈ l := by
  induction l with
  | nil => intro st; exact Or.inl rfl
  | cons e l ih =>
    intro st
    rw [List.foldl_cons]
    rcases ih (statsPure st e) with h | h
    · rw [h]
      simp only [statsPure]
      split_ifs with hc
      · exact Or.inr (List.mem_cons_self e l)
      · exact Or.inl rfl
    · exact Or.inr (List.mem_cons_of_mem e h)

theorem rawElevs_ne_nil_of_build_ok (hd : GeoDist) (t : Track)
    (pts : List ElevationPoint) (h : buildElevationPoints hd t = .ok pts) :
    rawElevs t ≠ [] := by
  cases hseg : t.segments with
  | nil =>
    simp only [buildElevationPoints, hseg] at h
    exact Except.noConfusion h
  | cons seg0 rest =>
    cases hs0 : seg0 with
    | nil =>
      simp only [buildElevationPoints, hseg, hs0] at h
      exact Except.noConfusion h
    | cons w0 s0 =>
      cases he : w0.elevation with
      | none =>
        simp only [buildElevationPoints, hseg, hs0, he] at h
        exact Except.noConfusion h
      | some e0 =>
        have : e0 ∈ rawElevs t := by
          simp only [rawElevs, allWaypoints, hseg, hs0]
          simp [List.filterMap_cons, he]
        exact List.ne_nil_of_mem this

/-- C6, counterexample: on a track whose elevations are all negative
(`[-5, -3]`), the computed `maxElevation` is `0`, not the raw maximum
`-3`, because `max_altitude` is initialised to `0.0` (line 178). -/
theorem claim6_counterexample :
    (embed_from_gpx taxiDist tNeg).map (fun r => r.maxElevation) = .ok 0 ∧
      rawElevs tNeg = [-5, -3] ∧ (rawElevs tNeg).maximum = some (-3) := by
  with_unfolding_all decide

/-- C6, amended: whenever the computation succeeds, `minElevation` is the
true minimum elevation over all raw (pre-filter) waypoints (whenever every
elevation is below `f64::MAX`, which holds for any `f64` data), and
`avgElevation` is their arithmetic mean; but `maxElevation` is the maximum
of `0.0` and the raw elevations — the fold starts at `0.0`, so for
all-negative tracks it reports `0.0` instead of the true maximum.  All
three values are computed from the raw waypoints before any filtering. -/
theorem claim6_raw_stats (hd : GeoDist) (t : Track) (r : GpxSummary)
    (h : embed_from_gpx hd t = .ok r)
    (hlt : ∀ e ∈ rawElevs t, e < f64MAX) :
    (r.minElevation ∈ rawElevs t ∧ ∀ e ∈ rawElevs t, r.minElevation ≤ e) ∧
    ((r.maxElevation = 0 ∨ r.maxElevation ∈ rawElevs t) ∧
      (∀ e ∈ rawElevs t, e ≤ r.maxElevation) ∧ 0 ≤ r.maxElevation) ∧
    r.avgElevation = (rawElevs t).sum / ((rawElevs t).length : ℚ) := by
  obtain ⟨stats, pts0, gl, hst, hb, hagg, hr⟩ := embed_from_gpx_ok_inv hd t r h
  have hne : rawElevs t ≠ [] := rawElevs_ne_nil_of_build_ok hd t pts0 hb
  have hcond : (t.segments.flatten.all fun w => w.elevation.isSome) = true := by
    by_contra hc
    rw [statsLoop_eq, if_neg hc] at hst
    exact Except.noConfusion hst
  rw [statsLoop_eq, if_pos hcond] at hst
  have hstats : stats = (rawElevs t).foldl statsPure ⟨0, 0, 0, f64MAX⟩ :=
    (Except.ok.inj hst).symm
  obtain ⟨e1, he1⟩ := List.exists_mem_of_ne_nil _ hne
  subst hr
  refine ⟨⟨?_, ?_⟩, ⟨?_, ?_, ?_⟩, ?_⟩
  · show stats.minAlt ∈ rawElevs t
    rcases statsPure_foldl_min_mem (rawElevs t) ⟨0, 0, 0, f64MAX⟩ with hm | hm
    · exfalso
      have hle := (statsPure_foldl_min_le (rawElevs t) ⟨0, 0, 0, f64MAX⟩).2 e1 he1
      rw [← hstats] at hm hle
      rw [hm] at hle
      exact absurd (lt_of_le_of_lt hle (hlt e1 he1)) (lt_irrefl _)
    · rw [← hstats] at hm
      exact hm
  · intro e he
    show stats.minAlt ≤ e
    have := (statsPure_foldl_min_le (rawElevs t) ⟨0, 0, 0, f64MAX⟩).2 e he
    rw [← hstats] at this
    exact this
  · show stats.maxAlt = 0 ∨ stats.maxAlt ∈ rawElevs t
    rcases statsPure_foldl_max_mem (rawElevs t) ⟨0, 0, 0, f64MAX⟩ with hm | hm
    · rw [← hstats] at hm
      exact Or.inl hm
    · rw [← hstats] at hm
      exact Or.inr hm
  · intro e he
    show e ≤ stats.maxAlt
    have := (statsPure_foldl_max_ge (rawElevs t) ⟨0, 0, 0, f64MAX⟩).2 e he
    rw [← hstats] at this
    exact this
  · show (0 : ℚ) ≤ stats.maxAlt
    have := (statsPure_foldl_max_ge (rawElevs t) ⟨0, 0, 0, f64MAX⟩).1
    rw [← hstats] at this
    exact this
  · show stats.sum / (stats.count : ℚ) = _
    rw [hstats, statsPure_foldl_sum, statsPure_foldl_count]
    norm_num

/-- C6, witness: the amended statistics theorem applied to the one-point
track. -/
theorem claim6_raw_stats_witness :
    (embed_from_gpx taxiDist tOnePoint =
        .ok ⟨0, 0, 0, 5, 5, 5, [⟨(0, 0), 0, 5, true, true⟩]⟩ ∧
      ∀ e ∈ rawElevs tOnePoint, e < f64MAX) ∧
      (((5 : ℚ) ∈ rawElevs tOnePoint ∧ ∀ e ∈ rawElevs tOnePoint, (5 : ℚ) ≤ e) ∧
      (((5 : ℚ) = 0 ∨ (5 : ℚ) ∈ rawElevs tOnePoint) ∧
        (∀ e ∈ rawElevs tOnePoint, e ≤ (5 : ℚ)) ∧ (0 : ℚ) ≤ 5) ∧
      (5 : ℚ) = (rawElevs tOnePoint).sum / ((rawElevs tOnePoint).length : ℚ)) :=
  ⟨⟨by with_unfolding_all decide, by with_unfolding_all decide⟩,
    claim6_raw_stats taxiDist tOnePoint
      ⟨0, 0, 0, 5, 5, 5, [⟨(0, 0), 0, 5, true, true⟩]⟩
      (by with_unfolding_all decide) (by with_unfolding_all decide)⟩

/-! ## C7: multi-segment concatenation. -/

theorem trackWindows_map_snd (t : Track) :
    (trackWindows t).map Prod.snd = (t.segments.map (fun s => s.drop 1)).flatten := by
  rw [trackWindows, List.map_flatten, List.map_map]
  congr 1
  apply List.map_congr_left
  intro s _
  show (s.zip s.tail).map Prod.snd = s.drop 1
  rw [List.map_snd_zip s s.tail (by cases s <;> simp)]
  exact Eq.symm (List.drop_one s)

theorem annotatePure_map_pt_elev (hd : GeoDist) (prs : List (Waypoint × Waypoint)) :
    ∀ d : ℚ, (annotatePure hd d prs).map (fun p => (p.pt, p.elevation)) =
      (prs.map Prod.snd).map (fun w => (w.pt, w.elevation.getD 0)) := by
  induction prs with
  | nil => intro d; rfl
  | cons pr prs ih =>
    intro d
    simp only [annotatePure, List.map_cons]
    rw [ih]

theorem getLastD_congr (l : List ElevationPoint) (a b : ElevationPoint)
    (h : l ≠ []) : l.getLastD a = l.getLastD b := by
  cases l with
  | nil => exact absurd rfl h
  | cons x xs => rw [List.getLastD_cons, List.getLastD_cons]

theorem annotatePure_ne_nil (hd : GeoDist) (pr : Waypoint × Waypoint)
    (prs : List (Waypoint × Waypoint)) (d : ℚ) :
    annotatePure hd d (pr :: prs) ≠ [] := by
  rw [annotatePure]
  exact List.cons_ne_nil _ _

theorem annotatePure_getLast_distance (hd : GeoDist)
    (prs : List (Waypoint × Waypoint)) : ∀ d : ℚ, prs ≠ [] →
    ((annotatePure hd d prs).getLastD default).distance =
      d + (prs.map (fun pr => hd pr.1.pt pr.2.pt)).sum := by
  induction prs with
  | nil => intro d h; exact absurd rfl h
  | cons pr prs ih =>
    intro d _
    cases hp : prs with
    | nil =>
      simp [annotatePure]
    | cons q prs2 =>
      rw [annotatePure, List.getLastD_cons]
      have hne : prs ≠ [] := by rw [hp]; exact List.cons_ne_nil q prs2
      rw [← hp]
      have hnil : annotatePure hd (d + hd pr.1.pt pr.2.pt) prs ≠ [] := by
        rw [hp]
        exact annotatePure_ne_nil hd q prs2 _
      rw [getLastD_congr _ _ default hnil, ih _ hne]
      simp [add_assoc]

theorem windows_sum_eq_pathLength (hd : GeoDist) (t : Track) :
    ((trackWindows t).map (fun pr => hd pr.1.pt pr.2.pt)).sum =
      (t.segments.map (fun s => pathLength hd (s.map (fun w => w.pt)))).sum := by
  rw [trackWindows, List.map_flatten, List.sum_flatten, List.map_map, List.map_map]
  congr 1
  apply List.map_congr_left
  intro s _
  show ((s.zip s.tail).map (fun pr => hd pr.1.pt pr.2.pt)).sum = _
  exact lineLength_eq_pathLength hd s

/-- C7, counterexample: on a two-segment track with four waypoints, the
annotated elevation sequence has only three points — the first waypoint of
the second segment is dropped (windows are taken per segment), so not
every waypoint of every segment appears in the annotated sequence. -/
theorem claim7_counterexample :
    (buildElevationPoints taxiDist tTwoSeg).map (fun l => l.length) = .ok 3 ∧
      (allWaypoints tTwoSeg).length = 4 := by
  with_unfolding_all decide

/-- C7, amended: the waypoints are processed per segment, not as one
concatenated sequence: the annotated elevation sequence consists of the
first waypoint of the first segment followed by, for each segment in
order, that segment's waypoints from index 1 on (each segment's first
waypoint other than the very first is dropped).  The cumulative distance
counter does continue (is never reset) across segment boundaries, but no
cross-boundary haversine distance is ever added: the final cumulative
distance equals the sum of the within-segment consecutive distances. -/
theorem claim7_concatenation (hd : GeoDist) (t : Track)
    (pts : List ElevationPoint) (w0 : Waypoint) (s0 : List Waypoint)
    (rest : List (List Waypoint))
    (hseg : t.segments = (w0 :: s0) :: rest)
    (h : buildElevationPoints hd t = .ok pts) :
    pts.map (fun p => (p.pt, p.elevation)) =
      (w0.pt, w0.elevation.getD 0) ::
        ((t.segments.map (fun s => s.drop 1)).flatten.map
          (fun w => (w.pt, w.elevation.getD 0))) ∧
    (pts.getLastD default).distance =
      (t.segments.map (fun s => pathLength hd (s.map (fun w => w.pt)))).sum := by
  cases he : w0.elevation with
  | none =>
    simp only [buildElevationPoints, hseg, he] at h
    exact Except.noConfusion h
  | some e0 =>
    simp only [buildElevationPoints, hseg, he] at h
    cases hann : annotateLoop hd ([⟨w0.pt, 0, e0, true, false⟩], 0)
        (trackWindows t) with
    | error msg =>
      rw [hann] at h
      exact Except.noConfusion h
    | ok st =>
      rw [hann] at h
      have hpts := Except.ok.inj h
      have hall : (trackWindows t).all (fun pr => pr.2.elevation.isSome) = true := by
        by_contra hc
        rw [annotateLoop_eq_err hd (trackWindows t) _ _ hc] at hann
        exact Except.noConfusion hann
      rw [annotateLoop_eq_ok hd (trackWindows t) _ _ hall] at hann
      have hst := Except.ok.inj hann
      have hpts2 : pts = ⟨w0.pt, 0, e0, true, false⟩ ::
          annotatePure hd 0 (trackWindows t) := by
        rw [← hpts, ← hst]
        rfl
      constructor
      · rw [hpts2, List.map_cons, annotatePure_map_pt_elev, trackWindows_map_snd]
        simp [he]
      · rw [hpts2, ← windows_sum_eq_pathLength]
        cases hw : trackWindows t with
        | nil => simp [annotatePure]
        | cons q qs =>
          rw [List.getLastD_cons,
            getLastD_congr _ _ default (annotatePure_ne_nil hd q qs 0),
            annotatePure_getLast_distance hd (q :: qs) 0 (List.cons_ne_nil q qs),
            zero_add]

/-- C7, witness: the amended concatenation theorem applied to the
two-segment track. -/
theorem claim7_concatenation_witness :
    (tTwoSeg.segments = (wp 0 0 0 :: [wp 10 0 0]) :: [[wp 30 0 0, wp 40 0 0]] ∧
      buildElevationPoints taxiDist tTwoSeg =
        .ok [⟨(0, 0), 0, 0, true, false⟩, ⟨(10, 0), 10, 0, false, false⟩,
          ⟨(40, 0), 20, 0, false, false⟩]) ∧
    ([⟨(0, 0), 0, 0, true, false⟩, ⟨(10, 0), 10, 0, false, false⟩,
        (⟨(40, 0), 20, 0, false, false⟩ : ElevationPoint)].map
          (fun p => (p.pt, p.elevation)) =
      ((wp 0 0 0).pt, (wp 0 0 0).elevation.getD 0) ::
        ((tTwoSeg.segments.map (fun s => s.drop 1)).flatten.map
          (fun w => (w.pt, w.elevation.getD 0))) ∧
    (([⟨(0, 0), 0, 0, true, false⟩, ⟨(10, 0), 10, 0, false, false⟩,
        (⟨(40, 0), 20, 0, false, false⟩ : ElevationPoint)]).getLastD default).distance =
      (tTwoSeg.segments.map
        (fun s => pathLength taxiDist (s.map (fun w => w.pt)))).sum) :=
  ⟨⟨by with_unfolding_all decide, by with_unfolding_all decide⟩,
    claim7_concatenation taxiDist tTwoSeg _ (wp 0 0 0) [wp 10 0 0]
      [[wp 30 0 0, wp 40 0 0]] (by with_unfolding_all decide)
      (by with_unfolding_all decide)⟩

/-! ## C3: Stage 1 characterization. -/

theorem lastMarkedBefore_succ_of_false (l : List ElevationPoint) (b : ℕ)
    (h : survAt l b = false) :
    lastMarkedBefore l (b + 1) = lastMarkedBefore l b := by
  rw [lastMarkedBefore, lastMarkedBefore, List.range_succ, List.filter_append]
  simp [h]

theorem lastMarkedBefore_succ_of_true (l : List ElevationPoint) (b : ℕ)
    (h : survAt l b = true) :
    lastMarkedBefore l (b + 1) = b := by
  rw [lastMarkedBefore, List.range_succ, List.filter_append]
  simp [h, List.getLastD_concat]

theorem lastMarkedBefore_congr (l l' : List ElevationPoint) (b : ℕ)
    (h : ∀ j, j < b → survAt l j = survAt l' j) :
    lastMarkedBefore l b = lastMarkedBefore l' b := by
  rw [lastMarkedBefore, lastMarkedBefore]
  congr 1
  apply List.filter_congr
  intro j hj
  exact h j (List.mem_range.mp hj)

theorem stage1Go_invariant (pts : List ElevationPoint) : ∀ (r b : ℕ)
    (st : List ElevationPoint × ℕ × ℕ),
    1 ≤ b →
    st.1.length = pts.length →
    (∀ j, elevAt st.1 j = elevAt pts j) →
    (∀ j, b ≤ j → survAt st.1 j = false) →
    (∀ j, survAt st.1 j = true → 1 ≤ j ∧ j < b) →
    st.2.1 = lastMarkedBefore st.1 b →
    (∀ j, j < b → (survAt st.1 j = true ↔
      (1 ≤ j ∧ 0 < (elevAt pts j - elevAt pts (lastMarkedBefore st.1 j)) *
        (elevAt pts (j + 1) - elevAt pts j)))) →
    (stage1Go st b r).1.length = pts.length ∧
    (∀ j, elevAt (stage1Go st b r).1 j = elevAt pts j) ∧
    (∀ j, b + r ≤ j → survAt (stage1Go st b r).1 j = false) ∧
    (∀ j, survAt (stage1Go st b r).1 j = true → 1 ≤ j ∧ j < b + r) ∧
    (∀ j, j < b + r → (survAt (stage1Go st b r).1 j = true ↔
      (1 ≤ j ∧ 0 < (elevAt pts j -
          elevAt pts (lastMarkedBefore (stage1Go st b r).1 j)) *
        (elevAt pts (j + 1) - elevAt pts j)))) := by
  intro r
  induction r with
  | zero =>
    intro b st hb hlen helev hun hmk _hls hchar
    exact ⟨hlen, helev, fun j hj => hun j (by omega),
      fun j hj => by have := hmk j hj; omega,
      fun j hj => hchar j (by omega)⟩
  | succ r ih =>
    intro b st hb hlen helev hun hmk hls hchar
    rw [stage1Go]
    have hbr : b + (r + 1) = (b + 1) + r := by omega
    rw [hbr]
    by_cases hc : (elevAt st.1 b - elevAt st.1 st.2.1) *
        (elevAt st.1 (b + 1) - elevAt st.1 b) > 0
    · have hstep : stage1Step st b = (setSurv st.1 b true, b, st.2.2 + 1) := by
        simp only [stage1Step]
        rw [if_pos hc]
      rw [hstep]
      have hblt : b < st.1.length := by
        by_contra hge
        have hge' : st.1.length ≤ b := by omega
        have h1 : elevAt st.1 b = 0 := by
          rw [elevAt, List.getD_eq_default _ _ hge']
          rfl
        have h2 : elevAt st.1 (b + 1) = 0 := by
          rw [elevAt, List.getD_eq_default _ _ (by omega)]
          rfl
        rw [h1, h2] at hc
        simp at hc
      have hsurvb : survAt (setSurv st.1 b true) b = true := by
        rw [survAt_setSurv]
        exact if_pos ⟨rfl, hblt⟩
      have hkeep : ∀ j, j ≠ b → survAt (setSurv st.1 b true) j = survAt st.1 j := by
        intro j hj
        rw [survAt_setSurv, if_neg]
        intro hcon
        exact hj hcon.1.symm
      have hkeepLt : ∀ j, j < b → survAt (setSurv st.1 b true) j = survAt st.1 j :=
        fun j hj => hkeep j (by omega)
      apply ih (b + 1) (setSurv st.1 b true, b, st.2.2 + 1) (by omega)
      · rw [length_setSurv]
        exact hlen
      · intro j
        rw [elevAt_setSurv]
        exact helev j
      · intro j hj
        rw [hkeep j (by omega)]
        exact hun j (by omega)
      · intro j hj
        by_cases hjb : j = b
        · omega
        · rw [hkeep j hjb] at hj
          have := hmk j hj
          omega
      · show b = lastMarkedBefore (setSurv st.1 b true) (b + 1)
        rw [lastMarkedBefore_succ_of_true _ _ hsurvb]
      · intro j hj
        by_cases hjb : j = b
        · subst hjb
          rw [hsurvb]
          have hlmb : lastMarkedBefore (setSurv st.1 j true) j =
              lastMarkedBefore st.1 j :=
            lastMarkedBefore_congr _ _ j (fun m hm => hkeepLt m (by omega))
          rw [hlmb, ← hls]
          constructor
          · intro _
            refine ⟨hb, ?_⟩
            rw [← helev j, ← helev (j + 1), ← helev st.2.1]
            exact hc
          · intro _
            rfl
        · have hjlt : j < b := by omega
          rw [hkeepLt j hjlt]
          have hlmb : lastMarkedBefore (setSurv st.1 b true) j =
              lastMarkedBefore st.1 j :=
            lastMarkedBefore_congr _ _ j (fun m hm => hkeepLt m (by omega))
          rw [hlmb]
          exact hchar j hjlt
    · have hstep : stage1Step st b = st := by
        simp only [stage1Step]
        rw [if_neg hc]
      rw [hstep]
      have hsurvb : survAt st.1 b = false := hun b (le_refl b)
      apply ih (b + 1) st (by omega) hlen helev
      · intro j hj
        exact hun j (by omega)
      · intro j hj
        have := hmk j hj
        omega
      · show st.2.1 = lastMarkedBefore st.1 (b + 1)
        rw [lastMarkedBefore_succ_of_false _ _ hsurvb]
        exact hls
      · intro j hj
        by_cases hjb : j = b
        · subst hjb
          rw [hsurvb]
          constructor
          · intro hcon
            exact Bool.noConfusion hcon
          · rintro ⟨_, hcond⟩
            exfalso
            apply hc
            rw [← hls] at hcond
            rw [helev j, helev (j + 1), helev st.2.1]
            exact hcond
        · exact hchar j (by omega)

/-- C3, confirmed: in the filtered list produced by Stage 1 (run on a
list whose `survived` flags all start false, as in the pipeline), a point
is marked survived iff it is the forced last point, or it is an interior
index `1 ≤ i ≤ n-2` whose elevation trend on both sides of the last
survivor points the same direction:
`(elev[i] - elev[lastSurvived]) * (elev[i+1] - elev[i]) > 0`, where
`lastSurvived` is the nearest surviving index below `i` (0 when none). -/
theorem claim3_stage1_characterization (pts : List ElevationPoint)
    (h0 : pts.all (fun p => !p.survived) = true) (hne : pts ≠ []) :
    ∀ i, survAt (stage1 pts).1 i = true ↔
      (i = pts.length - 1 ∨
        (1 ≤ i ∧ i + 1 < pts.length ∧
          0 < (elevAt pts i - elevAt pts (lastMarkedBefore (stage1 pts).1 i)) *
            (elevAt pts (i + 1) - elevAt pts i))) := by
  have h0' : ∀ j, survAt pts j = false := by
    intro j
    by_cases hj : j < pts.length
    · have hmem : pts.getD j default ∈ pts := by
        rw [List.getD_eq_getElem pts default hj]
        exact List.getElem_mem hj
      have hall := List.all_eq_true.mp h0 _ hmem
      rw [survAt]
      simp only [Bool.not_eq_true'] at hall
      exact hall
    · rw [survAt, List.getD_eq_default _ _ (by omega)]
      rfl
  have hlen : 0 < pts.length := List.length_pos.mpr hne
  have hinv := stage1Go_invariant pts (pts.length - 1 - 1) 1 (pts, 0, 0)
    (le_refl 1) rfl (fun j => rfl) (fun j _ => h0' j)
    (fun j hj => by rw [h0' j] at hj; exact Bool.noConfusion hj)
    (by
      show (0 : ℕ) = lastMarkedBefore pts 1
      rw [lastMarkedBefore]
      have : List.range 1 = [0] := rfl
      rw [this]
      simp [h0' 0])
    (by
      intro j hj
      have hj0 : j = 0 := by omega
      subst hj0
      rw [h0' 0]
      constructor
      · intro hcon
        exact Bool.noConfusion hcon
      · rintro ⟨h1, _⟩
        omega)
  obtain ⟨ilen, ielev, iun, imk, ichar⟩ := hinv
  intro i
  have hfin : (stage1 pts).1 =
      setSurv (stage1Go (pts, 0, 0) 1 (pts.length - 1 - 1)).1
        (pts.length - 1) true := rfl
  rw [hfin]
  by_cases hi : i = pts.length - 1
  · subst hi
    rw [survAt_setSurv, if_pos ⟨rfl, by rw [ilen]; omega⟩]
    simp
  · rw [survAt_setSurv, if_neg (fun hcon => hi hcon.1.symm)]
    by_cases hlt : i < pts.length - 1
    · have hiB : i < 1 + (pts.length - 1 - 1) := by omega
      have hlmb : lastMarkedBefore
          (setSurv (stage1Go (pts, 0, 0) 1 (pts.length - 1 - 1)).1
            (pts.length - 1) true) i =
          lastMarkedBefore (stage1Go (pts, 0, 0) 1 (pts.length - 1 - 1)).1 i := by
        apply lastMarkedBefore_congr
        intro j hj
        rw [survAt_setSurv, if_neg]
        intro hcon
        omega
      rw [hlmb, ichar i hiB]
      constructor
      · rintro ⟨h1, hcond⟩
        exact Or.inr ⟨h1, by omega, hcond⟩
      · rintro (hcon | ⟨h1, _, hcond⟩)
        · exact absurd hcon hi
        · exact ⟨h1, hcond⟩
    · have hge : 1 + (pts.length - 1 - 1) ≤ i := by omega
      rw [iun i hge]
      constructor
      · intro hcon
        exact Bool.noConfusion hcon
      · rintro (hcon | ⟨_, h2, _⟩)
        · exact absurd hcon hi
        · exact absurd h2 (by omega)

/-- C3, witness: the Stage-1 characterization applied to a concrete
three-point ascending profile. -/
theorem claim3_stage1_witness :
    (pts3.all (fun p => !p.survived) = true ∧ pts3 ≠ []) ∧
      (∀ i, survAt (stage1 pts3).1 i = true ↔
        (i = pts3.length - 1 ∨
          (1 ≤ i ∧ i + 1 < pts3.length ∧
            0 < (elevAt pts3 i - elevAt pts3 (lastMarkedBefore (stage1 pts3).1 i)) *
              (elevAt pts3 (i + 1) - elevAt pts3 i)))) :=
  ⟨⟨by with_unfolding_all decide, by with_unfolding_all decide⟩,
    claim3_stage1_characterization pts3 (by with_unfolding_all decide)
      (by with_unfolding_all decide)⟩

/-! ## C4: Stage 2 grade bound. -/

theorem survAt_lt_length (l : List ElevationPoint) (b : ℕ)
    (h : survAt l b = true) : b < l.length := by
  by_contra hge
  rw [survAt, List.getD_eq_default _ _ (by omega)] at h
  exact Bool.noConfusion h

theorem stage2Go_invariant (hd : GeoDist) (pts : List ElevationPoint) : ∀ (r b : ℕ)
    (st : List ElevationPoint × ℕ × ℕ),
    1 ≤ b →
    (∀ j, elevAt st.1 j = elevAt pts j) →
    (∀ j, ptAt st.1 j = ptAt pts j) →
    ((st.2.1 = 0 ∧ ∀ m, 1 ≤ m → m < b → survAt st.1 m = false) ∨
      (1 ≤ st.2.1 ∧ st.2.1 < b ∧ survAt st.1 st.2.1 = true ∧
        ∀ m, st.2.1 < m → m < b → survAt st.1 m = false)) →
    (∀ i j, 1 ≤ i → i < j → j < b → survAt st.1 i = true → survAt st.1 j = true →
      (∀ k, i < k → k < j → survAt st.1 k = false) →
      |(elevAt pts j - elevAt pts i) * 100 / hd (ptAt pts j) (ptAt pts i)| ≤ 70) →
    (∀ i j, 1 ≤ i → i < j → j < b + r →
      survAt (stage2Go hd st b r).1 i = true →
      survAt (stage2Go hd st b r).1 j = true →
      (∀ k, i < k → k < j → survAt (stage2Go hd st b r).1 k = false) →
      |(elevAt pts j - elevAt pts i) * 100 / hd (ptAt pts j) (ptAt pts i)| ≤ 70) := by
  intro r
  induction r with
  | zero =>
    intro b st hb helev hpt _hcur hpairs
    intro i j h1 h2 h3 hi hj hbet
    exact hpairs i j h1 h2 (by omega) hi hj hbet
  | succ r ih =>
    intro b st hb helev hpt hcur hpairs
    rw [stage2Go]
    have hbr : b + (r + 1) = (b + 1) + r := by omega
    rw [hbr]
    by_cases hsurv : survAt st.1 b = true
    · have hblt : b < st.1.length := survAt_lt_length st.1 b hsurv
      have hcondneg : ¬(survAt st.1 b = false) := by
        rw [hsurv]
        exact Bool.noConfusion
      by_cases hslope : |(elevAt st.1 b - elevAt st.1 st.2.1) * 100 /
          hd (ptAt st.1 b) (ptAt st.1 st.2.1)| > 70
      · have hstep : stage2Step hd st b = (setSurv st.1 b false, st.2.1, st.2.2) := by
          simp only [stage2Step]
          rw [if_neg hcondneg, if_pos hslope]
        rw [hstep]
        have hkeep : ∀ j, j ≠ b →
            survAt (setSurv st.1 b false) j = survAt st.1 j := by
          intro j hj
          rw [survAt_setSurv, if_neg (fun hcon => hj hcon.1.symm)]
        have hbfalse : survAt (setSurv st.1 b false) b = false := by
          rw [survAt_setSurv, if_pos ⟨rfl, hblt⟩]
        apply ih (b + 1) (setSurv st.1 b false, st.2.1, st.2.2) (by omega)
        · intro j
          show elevAt (setSurv st.1 b false) j = elevAt pts j
          rw [elevAt_setSurv]
          exact helev j
        · intro j
          show ptAt (setSurv st.1 b false) j = ptAt pts j
          rw [ptAt_setSurv]
          exact hpt j
        · simp only []
          rcases hcur with ⟨hls0, hnone⟩ | ⟨h1, h2, h3, h4⟩
          · refine Or.inl ⟨hls0, ?_⟩
            intro m hm1 hm2
            by_cases hmb : m = b
            · subst hmb
              exact hbfalse
            · rw [hkeep m hmb]
              exact hnone m hm1 (by omega)
          · refine Or.inr ⟨h1, by omega, ?_, ?_⟩
            · rw [hkeep st.2.1 (by omega)]
              exact h3
            · intro m hm1 hm2
              by_cases hmb : m = b
              · subst hmb
                exact hbfalse
              · rw [hkeep m hmb]
                exact h4 m hm1 (by omega)
        · simp only []
          intro i j h1 h2 h3 hi hj hbet
          by_cases hjb : j = b
          · subst hjb
            rw [hbfalse] at hj
            exact Bool.noConfusion hj
          · have hjlt : j < b := by omega
            rw [hkeep j hjb] at hj
            rw [hkeep i (by omega)] at hi
            apply hpairs i j h1 h2 hjlt hi hj
            intro k hk1 hk2
            have := hbet k hk1 hk2
            rw [hkeep k (by omega)] at this
            exact this
      · have hstep : stage2Step hd st b = (st.1, b, st.2.2 + 1) := by
          simp only [stage2Step]
          rw [if_neg hcondneg, if_neg hslope]
        rw [hstep]
        apply ih (b + 1) (st.1, b, st.2.2 + 1) (by omega) helev hpt
        · simp only []
          exact Or.inr ⟨hb, by omega, hsurv, fun m hm1 hm2 => absurd hm1 (by omega)⟩
        · simp only []
          intro i j h1 h2 h3 hi hj hbet
          by_cases hjb : j = b
          · subst hjb
            have hieq : i = st.2.1 := by
              rcases hcur with ⟨hls0, hnone⟩ | ⟨hc1, hc2, hc3, hc4⟩
              · exact absurd hi (by rw [hnone i h1 h2]; exact Bool.noConfusion)
              · rcases lt_trichotomy i st.2.1 with hlt | heq | hgt
                · exact absurd hc3 (by rw [hbet st.2.1 hlt hc2]; exact Bool.noConfusion)
                · exact heq
                · exact absurd hi (by rw [hc4 i hgt h2]; exact Bool.noConfusion)
            subst hieq
            have := le_of_not_lt hslope
            rw [helev j, helev st.2.1, hpt j, hpt st.2.1] at this
            exact this
          · exact hpairs i j h1 h2 (by omega) hi hj hbet
    · have hsurv' : survAt st.1 b = false := by
        cases hx : survAt st.1 b
        · rfl
        · exact absurd hx hsurv
      have hstep : stage2Step hd st b = st := by
        simp only [stage2Step]
        rw [if_pos hsurv']
      rw [hstep]
      apply ih (b + 1) st (by omega) helev hpt
      · rcases hcur with ⟨hls0, hnone⟩ | ⟨h1, h2, h3, h4⟩
        · refine Or.inl ⟨hls0, ?_⟩
          intro m hm1 hm2
          by_cases hmb : m = b
          · subst hmb
            exact hsurv'
          · exact hnone m hm1 (by omega)
        · refine Or.inr ⟨h1, by omega, h3, ?_⟩
          intro m hm1 hm2
          by_cases hmb : m = b
          · subst hmb
            exact hsurv'
          · exact h4 m hm1 (by omega)
      · intro i j h1 h2 h3 hi hj hbet
        by_cases hjb : j = b
        · subst hjb
          rw [hsurv'] at hj
          exact Bool.noConfusion hj
        · exact hpairs i j h1 h2 (by omega) hi hj hbet

/-- C4, confirmed: after Stage 2 completes, any two adjacent surviving
interior points `i < j` (no surviving interior point between them, both
strictly inside the list, so excluding the forced first and last points)
satisfy the grade bound
`|(elev[j] - elev[i]) * 100 / haversine(point[j], point[i])| ≤ 70`.
(Rational division by zero is `0`, which trivially satisfies the bound;
the source's `f64` would produce an infinite grade and demote such a
point, so the bound also holds there.) -/
theorem claim4_stage2_grade_bound (hd : GeoDist) (pts : List ElevationPoint) :
    ∀ i j, 1 ≤ i → i < j → j + 1 < pts.length →
    survAt (stage2 hd pts).1 i = true → survAt (stage2 hd pts).1 j = true →
    (∀ k, i < k → k < j → survAt (stage2 hd pts).1 k = false) →
    |(elevAt pts j - elevAt pts i) * 100 / hd (ptAt pts j) (ptAt pts i)| ≤ 70 := by
  intro i j h1 h2 h3 hi hj hbet
  have hcur0 : ((pts, 0, 0) : List ElevationPoint × ℕ × ℕ).2.1 = 0 ∧
      ∀ m, 1 ≤ m → m < 1 → survAt pts m = false := by
    exact ⟨rfl, fun m hm1 hm2 => absurd hm1 (by omega)⟩
  have hpairs0 : ∀ a c, 1 ≤ a → a < c → c < 1 → survAt pts a = true →
      survAt pts c = true → (∀ k, a < k → k < c → survAt pts k = false) →
      |(elevAt pts c - elevAt pts a) * 100 / hd (ptAt pts c) (ptAt pts a)| ≤ 70 := by
    intro a c ha hac hc1
    omega
  have hmain := stage2Go_invariant hd pts (pts.length - 1 - 1) 1 (pts, 0, 0)
    (le_refl 1) (fun _ => rfl) (fun _ => rfl) (Or.inl hcur0) hpairs0
  exact hmain i j h1 h2 (by omega) hi hj hbet

/-- C4, witness: the grade bound applied to the two adjacent interior
survivors of the five-point profile `pts5`. -/
theorem claim4_stage2_grade_bound_witness :
    ((1 : ℕ) ≤ 1 ∧ 1 < 2 ∧ 2 + 1 < pts5.length ∧
      survAt (stage2 taxiDist pts5).1 1 = true ∧
      survAt (stage2 taxiDist pts5).1 2 = true ∧
      (∀ k, 1 < k → k < 2 → survAt (stage2 taxiDist pts5).1 k = false)) ∧
    |(elevAt pts5 2 - elevAt pts5 1) * 100 /
      taxiDist (ptAt pts5 2) (ptAt pts5 1)| ≤ 70 :=
  ⟨⟨le_refl 1, by omega, by with_unfolding_all decide, by with_unfolding_all decide,
      by with_unfolding_all decide, fun k hk1 hk2 => absurd hk2 (by omega)⟩,
    claim4_stage2_grade_bound taxiDist pts5 1 2 (le_refl 1) (by omega)
      (by with_unfolding_all decide) (by with_unfolding_all decide)
      (by with_unfolding_all decide) (fun k hk1 hk2 => absurd hk2 (by omega))⟩

/-! ## C5: the profile rebuilder. -/

theorem getD_append_lt {α : Type} (l r : List α) (k : ℕ) (h : k < l.length) (d : α) :
    (l ++ r).getD k d = l.getD k d := by
  rw [List.getD_eq_getElem?_getD, List.getD_eq_getElem?_getD,
    List.getElem?_append_left h]

theorem getD_append_len {α : Type} (l r : List α) (a d : α) :
    (l ++ a :: r).getD l.length d = a := by
  induction l with
  | nil => rfl
  | cons x xs ih => simpa using ih

theorem survivorIdxs_split (pts : List ElevationPoint) (m : ℕ)
    (hm : m ≤ pts.length) :
    survivorIdxs pts = (List.range m).filter (fun j => survAt pts j) ++
      (List.range' m (pts.length - m)).filter (fun j => survAt pts j) := by
  rw [survivorIdxs, ← List.filter_append]
  congr 1
  have h2 := List.range'_append 0 m (pts.length - m) 1
  simp only [zero_add, one_mul] at h2
  rw [List.range_eq_range', List.range_eq_range', h2]
  congr 1
  omega

theorem survivorIdxs_head (pts : List ElevationPoint) (h0 : survAt pts 0 = true) :
    (survivorIdxs pts).getD 0 0 = 0 := by
  have hN : 0 < pts.length := survAt_lt_length pts 0 h0
  rw [survivorIdxs]
  cases hn : pts.length with
  | zero => omega
  | succ n =>
    rw [List.range_succ_eq_map, List.filter_cons]
    simp [h0]

theorem rebuildGo_invariant (hd : GeoDist) (pts : List ElevationPoint)
    (h0 : survAt pts 0 = true) : ∀ (r m : ℕ) (acc : List ElevationPoint) (ls : ℕ),
    m + r = pts.length →
    acc.length = ((List.range m).filter (fun j => survAt pts j)).length →
    (∀ k, k < acc.length → acc.getD k default =
      ⟨ptAt pts ((survivorIdxs pts).getD k 0),
        (if k ≤ 1 then 0 else hd (ptAt pts ((survivorIdxs pts).getD k 0))
          (ptAt pts ((survivorIdxs pts).getD (k - 1) 0))),
        elevAt pts ((survivorIdxs pts).getD k 0), false, true⟩) →
    (ls = if acc.length = 0 then 0 else (survivorIdxs pts).getD (acc.length - 1) 0) →
    (2 ≤ acc.length → 1 ≤ ls) →
    (1 ≤ m → 1 ≤ acc.length) →
    ((rebuildGo hd pts (acc, ls) m r).1.length = (survivorIdxs pts).length ∧
      ∀ k, k < (rebuildGo hd pts (acc, ls) m r).1.length →
        (rebuildGo hd pts (acc, ls) m r).1.getD k default =
          ⟨ptAt pts ((survivorIdxs pts).getD k 0),
            (if k ≤ 1 then 0 else hd (ptAt pts ((survivorIdxs pts).getD k 0))
              (ptAt pts ((survivorIdxs pts).getD (k - 1) 0))),
            elevAt pts ((survivorIdxs pts).getD k 0), false, true⟩) := by
  intro r
  induction r with
  | zero =>
    intro m acc ls hmr h1 h2 _h3 _h4 _h5
    have hm : m = pts.length := by omega
    subst hm
    constructor
    · rw [rebuildGo]
      rw [h1, survivorIdxs]
    · intro k hk
      exact h2 k hk
  | succ r ih =>
    intro m acc ls hmr h1 h2 h3 h4 h5
    have hmlt : m < pts.length := by omega
    have hsplit := survivorIdxs_split pts m (by omega)
    have hrange' : List.range' m (pts.length - m) =
        m :: List.range' (m + 1) (pts.length - m - 1) := by
      obtain ⟨n, hn⟩ : ∃ n, pts.length - m = n + 1 := ⟨pts.length - m - 1, by omega⟩
      rw [hn, List.range'_succ]
      have hn1 : n + 1 - 1 = n := by omega
      rw [hn1]
    rw [rebuildGo]
    by_cases hsurv : survAt pts m = true
    · have hcondneg : ¬(survAt pts m = false) := by
        rw [hsurv]
        exact Bool.noConfusion
      have hstep : rebuildStep hd pts (acc, ls) m =
          (acc ++ [⟨ptAt pts m,
            if ls = 0 then 0 else hd (ptAt pts m) (ptAt pts ls),
            elevAt pts m, false, true⟩], m) := by
        rw [rebuildStep, if_neg hcondneg]
      rw [hstep]
      have hpreflen : ((List.range (m + 1)).filter (fun j => survAt pts j)).length =
          acc.length + 1 := by
        rw [List.range_succ, List.filter_append, List.length_append, ← h1]
        simp [hsurv]
      have hidxk : (survivorIdxs pts).getD acc.length 0 = m := by
        rw [hsplit, hrange', List.filter_cons]
        simp only [hsurv, if_pos]
        rw [h1]
        exact getD_append_len _ _ _ _
      have helem : (⟨ptAt pts m,
            if ls = 0 then 0 else hd (ptAt pts m) (ptAt pts ls),
            elevAt pts m, false, true⟩ : ElevationPoint) =
          ⟨ptAt pts ((survivorIdxs pts).getD acc.length 0),
            (if acc.length ≤ 1 then 0
              else hd (ptAt pts ((survivorIdxs pts).getD acc.length 0))
                (ptAt pts ((survivorIdxs pts).getD (acc.length - 1) 0))),
            elevAt pts ((survivorIdxs pts).getD acc.length 0), false, true⟩ := by
        rw [hidxk]
        by_cases hk0 : acc.length = 0
        · have hls0 : ls = 0 := by rw [h3, if_pos hk0]
          rw [hls0, if_pos rfl, if_pos (by omega : acc.length ≤ 1)]
        · by_cases hk1 : acc.length = 1
          · have hls0 : ls = 0 := by
              rw [h3, if_neg hk0, hk1]
              exact survivorIdxs_head pts h0
            rw [hls0, if_pos rfl, if_pos (by omega)]
          · have hls : ls = (survivorIdxs pts).getD (acc.length - 1) 0 := by
              rw [h3, if_neg hk0]
            have hlspos : 1 ≤ ls := h4 (by omega)
            rw [if_neg (by omega), if_neg (by omega), hls]
      refine ih (m + 1) _ m (by omega) ?_ ?_ ?_ ?_ ?_
      · rw [List.length_append, hpreflen]
        rfl
      · intro k hk
        rw [List.length_append, List.length_singleton] at hk
        by_cases hklt : k < acc.length
        · rw [getD_append_lt _ _ _ hklt]
          exact h2 k hklt
        · have hkeq : k = acc.length := by omega
          subst hkeq
          rw [getD_append_len, helem]
      · rw [List.length_append, List.length_singleton]
        simp only [Nat.add_sub_cancel]
        rw [if_neg (by omega), hidxk]
      · intro hlen2
        rw [List.length_append, List.length_singleton] at hlen2
        by_cases hm0 : m = 0
        · subst hm0
          rw [h1] at hlen2
          simp at hlen2
        · omega
      · intro _
        rw [List.length_append, List.length_singleton]
        omega
    · have hsurv' : survAt pts m = false := by
        cases hx : survAt pts m
        · rfl
        · exact absurd hx hsurv
      have hstep : rebuildStep hd pts (acc, ls) m = (acc, ls) := by
        rw [rebuildStep, if_pos hsurv']
      rw [hstep]
      refine ih (m + 1) acc ls (by omega) ?_ h2 h3 h4 ?_
      · rw [List.range_succ, List.filter_append, List.length_append, ← h1]
        simp [hsurv']
      · intro _
        by_cases hm0 : m = 0
        · subst hm0
          rw [hsurv'] at h0
          exact Bool.noConfusion h0
        · exact h5 (by omega)

/-- C5, counterexample: on the five-point track `tFive` both filter
stages succeed, yet the second point of the rebuilt profile has distance
`0` while the haversine distance from the preceding survivor is `20`: the
`last_survived == 0` guard also fires for the second pushed point, so the
claim that only the first rebuilt point has distance 0 fails.  (The
extremum selector never modifies `distance` fields, so the profile of the
final summary exposes the rebuilt distances unchanged.) -/
theorem claim5_counterexample :
    (buildElevationPoints taxiDist tFive).map
        (fun l => (approximate_elevation_points taxiDist l).2) = .ok true ∧
      (embed_from_gpx taxiDist tFive).map
        (fun r => (r.profile.getD 1 default).distance) = .ok 0 ∧
      taxiDist (20, 0) (0, 0) = 20 := by
  with_unfolding_all decide

/-- C5, amended: when both filter stages succeed, the rebuilder outputs
exactly the surviving points in original order with fresh flags
(`extremum = false`, `survived = true`); the rebuilt point at position `k`
carries the haversine segment length from the immediately preceding
surviving point for `k ≥ 2`, while the first TWO rebuilt points (`k ≤ 1`)
both get distance `0` — the `last_survived == 0` cursor guard also matches
after pushing the forced first point. -/
theorem claim5_rebuild_characterization (hd : GeoDist) (pts : List ElevationPoint)
    (h0 : survAt pts 0 = true) : rebuild hd pts = rebuildSpec hd pts := by
  have hmain := rebuildGo_invariant hd pts h0 pts.length 0 [] 0 (by omega)
    (by simp) (by intro k hk; simp at hk) (by simp)
    (by intro h; simp at h) (by intro h; omega)
  rw [rebuild]
  apply List.ext_getElem
  · rw [hmain.1, rebuildSpec, List.length_mapIdx]
  · intro k hk1 hk2
    have hk : k < (rebuildGo hd pts ([], 0) 0 pts.length).1.length := hk1
    have hgd := hmain.2 k hk
    rw [← List.getD_eq_getElem _ default hk1, hgd]
    simp only [rebuildSpec] at hk2 ⊢
    rw [List.getElem_mapIdx]
    have hidx : (survivorIdxs pts)[k] = (survivorIdxs pts).getD k 0 := by
      rw [List.getD_eq_getElem]
    rw [hidx]

/-- C5, witness: the rebuild characterization applied to a concrete
three-survivor list whose first point survived. -/
theorem claim5_rebuild_witness :
    survAt [ep 0 0 0 true, ep 20 20 10 true, ep 80 80 5 true] 0 = true ∧
      rebuild taxiDist [ep 0 0 0 true, ep 20 20 10 true, ep 80 80 5 true] =
        rebuildSpec taxiDist [ep 0 0 0 true, ep 20 20 10 true, ep 80 80 5 true] :=
  ⟨by with_unfolding_all decide,
    claim5_rebuild_characterization taxiDist _ (by with_unfolding_all decide)⟩

/-! ## C8: the telescoping gain/loss sum. -/

theorem aggStep_foldl_spec (l : List ElevationPoint) :
    ∀ (g lo : ℚ) (p : ElevationPoint),
    (l.foldl aggStep (g, lo, p)).2.2 = (p :: l).getLastD default ∧
    (l.foldl aggStep (g, lo, p)).1 - (l.foldl aggStep (g, lo, p)).2.1 =
      g - lo + (((p :: l).getLastD default).elevation - p.elevation) := by
  induction l with
  | nil =>
    intro g lo p
    constructor
    · rfl
    · simp
  | cons q l ih =>
    intro g lo p
    rw [List.foldl_cons]
    have hstep : ∃ g' lo', aggStep (g, lo, p) q = (g', lo', q) ∧
        g' - lo' = g - lo + (q.elevation - p.elevation) := by
      rw [aggStep]
      by_cases hc : q.elevation - p.elevation > 0
      · exact ⟨g + (q.elevation - p.elevation), lo, by rw [if_pos hc], by ring⟩
      · refine ⟨g, lo + |q.elevation - p.elevation|, by rw [if_neg hc], ?_⟩
        rw [abs_of_nonpos (by linarith)]
        ring
    obtain ⟨g', lo', hstep, hdelta⟩ := hstep
    rw [hstep]
    obtain ⟨ih1, ih2⟩ := ih g' lo' q
    constructor
    · rw [ih1]
      simp only [List.getLastD_cons]
    · rw [ih2, hdelta]
      simp only [List.getLastD_cons]
      ring

theorem fmeGo_ext_mono (fuel : ℕ) : ∀ (s e : ℕ) (l : List ElevationPoint) (i : ℕ),
    extAt l i = true → extAt (fmeGo fuel s e l) i = true := by
  induction fuel with
  | zero => intro s e l i h; exact h
  | succ fuel ih =>
    intro s e l i h
    simp only [fmeGo]
    split_ifs with hmx
    · exact h
    · apply ih
      apply ih
      rw [extAt_setExt]
      split_ifs with hc
      · rfl
      · exact h

theorem profilePoints_head_ext (hd : GeoDist) (pts0 : List ElevationPoint)
    (h0 : pts0 ≠ []) : extAt (profilePoints hd pts0) 0 = true := by
  have hp1 : (approximate_elevation_points hd pts0).1 ≠ [] :=
    approximate_ne_nil hd pts0 h0
  have hp1len : 0 < (approximate_elevation_points hd pts0).1.length :=
    List.length_pos.mpr hp1
  rw [profilePoints]
  apply fmeGo_ext_mono
  rw [extAt_setExt, if_pos ⟨rfl, by rw [length_setExt]; exact hp1len⟩]

/-- C8, confirmed: whenever the computation succeeds and the final profile
carries at least 2 extremum-flagged points, `gainMeters - lossMeters`
telescopes to the elevation of the last extremum minus the elevation of
the first extremum (the first profile point, whose flag is always
forced). -/
theorem claim8_telescoping (hd : GeoDist) (t : Track) (r : GpxSummary)
    (h : embed_from_gpx hd t = .ok r)
    (h2 : 2 ≤ (r.profile.filter (fun p => p.extremum)).length) :
    r.gainMeters - r.lossMeters =
      ((r.profile.filter (fun p => p.extremum)).getLastD default).elevation -
        ((r.profile.filter (fun p => p.extremum)).headD default).elevation := by
  obtain ⟨stats, pts0, gl, hst, hb, hagg, hr⟩ := embed_from_gpx_ok_inv hd t r h
  obtain ⟨_, _, hpts0⟩ := buildElevationPoints_ok_shape hd t pts0 hb
  have hhead : extAt (profilePoints hd pts0) 0 = true :=
    profilePoints_head_ext hd pts0 hpts0
  have hprof : r.profile = profilePoints hd pts0 := by rw [hr]
  rw [hprof]
  cases hpp : profilePoints hd pts0 with
  | nil =>
    rw [hr] at h2
    rw [hpp] at h2
    simp at h2
  | cons p rest =>
    have hpext : p.extremum = true := by
      rw [hpp] at hhead
      rw [extAt, List.getD_cons_zero] at hhead
      exact hhead
    have hfilter : (p :: rest).filter (fun q => q.extremum) =
        p :: rest.filter (fun q => q.extremum) := by
      rw [List.filter_cons, if_pos hpext]
    rw [hpp] at hagg
    rw [aggregateExtrema] at hagg
    have hgl := Except.ok.inj hagg
    have hspec := aggStep_foldl_spec (rest.filter (fun q => q.extremum)) 0 0 p
    have hgain : r.gainMeters = gl.1 := by rw [hr]
    have hloss : r.lossMeters = gl.2 := by rw [hr]
    rw [hgain, hloss, ← hgl]
    simp only []
    rw [hspec.2, hfilter]
    rw [List.headD_cons]
    ring

/-- C8, witness: the telescoping identity applied to the two-point
ascending track. -/
theorem claim8_telescoping_witness :
    (embed_from_gpx taxiDist tTwoPt =
        .ok ⟨20, 10, 0, 0, 10, 5,
          [⟨(0, 0), 0, 0, true, false⟩, ⟨(20, 0), 20, 10, true, true⟩]⟩ ∧
      2 ≤ (([⟨(0, 0), 0, 0, true, false⟩,
        (⟨(20, 0), 20, 10, true, true⟩ : ElevationPoint)]).filter
          (fun p => p.extremum)).length) ∧
    (10 : ℚ) - 0 =
      ((([⟨(0, 0), 0, 0, true, false⟩,
        (⟨(20, 0), 20, 10, true, true⟩ : ElevationPoint)]).filter
          (fun p => p.extremum)).getLastD default).elevation -
      ((([⟨(0, 0), 0, 0, true, false⟩,
        (⟨(20, 0), 20, 10, true, true⟩ : ElevationPoint)]).filter
          (fun p => p.extremum)).headD default).elevation :=
  ⟨⟨by with_unfolding_all decide, by with_unfolding_all decide⟩,
    claim8_telescoping taxiDist tTwoPt
      ⟨20, 10, 0, 0, 10, 5,
        [⟨(0, 0), 0, 0, true, false⟩, ⟨(20, 0), 20, 10, true, true⟩]⟩
      (by with_unfolding_all decide) (by with_unfolding_all decide)⟩

/-! ## C9: non-fatal fallback when a filter stage fails. -/

theorem map_nonSurvData_eq_of_pointwise (l l' : List ElevationPoint)
    (hlen : l.length = l'.length)
    (h : ∀ j, nonSurvData (l.getD j default) = nonSurvData (l'.getD j default)) :
    l.map nonSurvData = l'.map nonSurvData := by
  apply List.ext_getElem
  · simp [hlen]
  · intro n h1 h2
    simp only [List.getElem_map]
    have hn := h n
    rw [List.getD_eq_getElem l default (by simpa using h1),
      List.getD_eq_getElem l' default (by simpa using h2)] at hn
    exact hn

theorem stage1Step_nonSurv (st : List ElevationPoint × ℕ × ℕ) (i : ℕ) : ∀ j,
    nonSurvData ((stage1Step st i).1.getD j default) =
      nonSurvData (st.1.getD j default) := by
  intro j
  simp only [stage1Step]
  split_ifs with hc
  · exact nonSurvData_setSurv st.1 i j true
  · rfl

theorem stage1Go_nonSurv (r : ℕ) : ∀ (st : List ElevationPoint × ℕ × ℕ) (i j : ℕ),
    nonSurvData ((stage1Go st i r).1.getD j default) =
      nonSurvData (st.1.getD j default) := by
  induction r with
  | zero => intro st i j; rfl
  | succ r ih =>
    intro st i j
    rw [stage1Go, ih]
    exact stage1Step_nonSurv st i j

theorem stage1_nonSurv (pts : List ElevationPoint) : ∀ j,
    nonSurvData ((stage1 pts).1.getD j default) =
      nonSurvData (pts.getD j default) := by
  intro j
  show nonSurvData ((setSurv (stage1Go (pts, 0, 0) 1 (pts.length - 1 - 1)).1
      (pts.length - 1) true).getD j default) = _
  rw [nonSurvData_setSurv]
  exact stage1Go_nonSurv _ _ _ _

theorem stage2Step_nonSurv (hd : GeoDist) (st : List ElevationPoint × ℕ × ℕ)
    (i : ℕ) : ∀ j,
    nonSurvData ((stage2Step hd st i).1.getD j default) =
      nonSurvData (st.1.getD j default) := by
  intro j
  simp only [stage2Step]
  split_ifs with h1 h2
  · rfl
  · exact nonSurvData_setSurv st.1 i j false
  · rfl

theorem stage2Go_nonSurv (hd : GeoDist) (r : ℕ) :
    ∀ (st : List ElevationPoint × ℕ × ℕ) (i j : ℕ),
    nonSurvData ((stage2Go hd st i r).1.getD j default) =
      nonSurvData (st.1.getD j default) := by
  induction r with
  | zero => intro st i j; rfl
  | succ r ih =>
    intro st i j
    rw [stage2Go, ih]
    exact stage2Step_nonSurv hd st i j

theorem stage2_nonSurv (hd : GeoDist) (pts : List ElevationPoint) : ∀ j,
    nonSurvData ((stage2 hd pts).1.getD j default) =
      nonSurvData (pts.getD j default) := by
  intro j
  show nonSurvData ((stage2Go hd (pts, 0, 0) 1 (pts.length - 1 - 1)).1.getD
    j default) = _
  exact stage2Go_nonSurv hd _ _ _ _

/-- C9, confirmed: when a filter stage leaves fewer than 2 survivors
(`approximate_elevation_points` returns `false`), the computation still
succeeds — `embed_from_gpx` produces a full summary — and the point list
handed to the remaining stages is the original annotated (unfiltered,
non-rebuilt) list: same points, distances, elevations and extremum flags,
only `survived` flags differ. -/
theorem claim9_fallback (hd : GeoDist) (t : Track) (pts : List ElevationPoint)
    (hall : allElevations t = true)
    (hb : buildElevationPoints hd t = .ok pts)
    (hfail : (approximate_elevation_points hd pts).2 = false) :
    (∃ r, embed_from_gpx hd t = .ok r) ∧
      (approximate_elevation_points hd pts).1.map nonSurvData =
        pts.map nonSurvData := by
  constructor
  · have hall' : (t.segments.flatten.all fun w => w.elevation.isSome) = true := hall
    have hst := statsLoop_eq t.segments ⟨0, 0, 0, f64MAX⟩
    rw [if_pos hall'] at hst
    obtain ⟨_, _, hpts⟩ := buildElevationPoints_ok_shape hd t pts hb
    obtain ⟨gl, _, hok⟩ := embed_from_gpx_ok_of_valid hd t _ _ hst hb hpts
    exact ⟨_, hok⟩
  · by_cases hc1 : (stage1 pts).2 < 2
    · have hres : (approximate_elevation_points hd pts).1 = (stage1 pts).1 := by
        simp only [approximate_elevation_points]
        rw [if_pos hc1]
      rw [hres]
      exact map_nonSurvData_eq_of_pointwise _ _ (stage1_length pts)
        (stage1_nonSurv pts)
    · by_cases hc2 : (stage2 hd (stage1 pts).1).2 < 2
      · have hres : (approximate_elevation_points hd pts).1 =
            (stage2 hd (stage1 pts).1).1 := by
          simp only [approximate_elevation_points]
          rw [if_neg hc1, if_pos hc2]
        rw [hres]
        apply map_nonSurvData_eq_of_pointwise
        · rw [stage2_length, stage1_length]
        · intro j
          rw [stage2_nonSurv hd _ j, stage1_nonSurv pts j]
      · exfalso
        have : (approximate_elevation_points hd pts).2 = true := by
          simp only [approximate_elevation_points]
          rw [if_neg hc1, if_neg hc2]
        rw [this] at hfail
        exact Bool.noConfusion hfail

/-- C9, witness: the fallback applied to the flat three-point track, on
which Stage 1 leaves fewer than 2 survivors. -/
theorem claim9_fallback_witness :
    (allElevations tFlat = true ∧
      buildElevationPoints taxiDist tFlat = .ok ptsFlat ∧
      (approximate_elevation_points taxiDist ptsFlat).2 = false) ∧
    ((∃ r, embed_from_gpx taxiDist tFlat = .ok r) ∧
      (approximate_elevation_points taxiDist ptsFlat).1.map nonSurvData =
        ptsFlat.map nonSurvData) :=
  ⟨⟨by with_unfolding_all decide, by with_unfolding_all decide,
      by with_unfolding_all decide⟩,
    claim9_fallback taxiDist tFlat ptsFlat (by with_unfolding_all decide)
      (by with_unfolding_all decide) (by with_unfolding_all decide)⟩

/-! ## C2: the Extremum Selector marks exactly the Douglas–Peucker extrema. -/

theorem devSq_congr (l l' : List ElevationPoint)
    (h : ∀ j, distAt l j = distAt l' j ∧ elevAt l j = elevAt l' j) :
    ∀ s e i, devSq l s e i = devSq l' s e i := by
  intro s e i
  rw [devSq, devSq, (h i).1, (h i).2, (h s).1, (h s).2, (h e).1, (h e).2]

theorem chosenMax_congr (l l' : List ElevationPoint)
    (h : ∀ j, distAt l j = distAt l' j ∧ elevAt l j = elevAt l' j) (s e m : ℕ) :
    chosenMax l s e m ↔ chosenMax l' s e m := by
  simp only [chosenMax, devSq_congr l l' h]

theorem DPmark_congr (l l' : List ElevationPoint)
    (h : ∀ j, distAt l j = distAt l' j ∧ elevAt l j = elevAt l' j) {s e i : ℕ}
    (hd : DPmark l s e i) : DPmark l' s e i := by
  induction hd with
  | here hc => exact .here ((chosenMax_congr l l' h _ _ _).mp hc)
  | left hc _ ih => exact .left ((chosenMax_congr l l' h _ _ _).mp hc) ih
  | right hc _ ih => exact .right ((chosenMax_congr l l' h _ _ _).mp hc) ih

theorem DPmark_bounds (pts : List ElevationPoint) {s e i : ℕ}
    (h : DPmark pts s e i) : s < i ∧ i < e := by
  induction h with
  | here hc => exact ⟨hc.1, hc.2.1⟩
  | left hc _ ih => exact ⟨ih.1, lt_trans ih.2 hc.2.1⟩
  | right hc _ ih => exact ⟨lt_trans hc.1 ih.1, ih.2⟩

theorem chosenMax_unique (pts : List ElevationPoint) {s e a b : ℕ}
    (ha : chosenMax pts s e a) (hb : chosenMax pts s e b) : a = b := by
  rcases lt_trichotomy a b with h | h | h
  · have h1 := hb.2.2.2.2 a ha.1 h
    have h2 := ha.2.2.2.1 b hb.1 hb.2.1
    exact absurd (lt_of_le_of_lt h2 h1) (lt_irrefl _)
  · exact h
  · have h1 := ha.2.2.2.2 b hb.1 h
    have h2 := hb.2.2.2.1 a ha.1 ha.2.1
    exact absurd (lt_of_le_of_lt h2 h1) (lt_irrefl _)

theorem DPmark_split (pts : List ElevationPoint) {s e mx : ℕ}
    (hc : chosenMax pts s e mx) (i : ℕ) :
    DPmark pts s e i ↔ (i = mx ∨ DPmark pts s mx i ∨ DPmark pts mx e i) := by
  constructor
  · intro h
    cases h with
    | here hc' => exact Or.inl (chosenMax_unique pts hc' hc)
    | left hc' hrec =>
      have hm := chosenMax_unique pts hc' hc
      rw [hm] at hrec
      exact Or.inr (Or.inl hrec)
    | right hc' hrec =>
      have hm := chosenMax_unique pts hc' hc
      rw [hm] at hrec
      exact Or.inr (Or.inr hrec)
  · rintro (rfl | h | h)
    · exact .here hc
    · exact .left hc h
    · exact .right hc h

theorem distElev_setExt (l : List ElevationPoint) (m : ℕ) (b : Bool) :
    ∀ j, distAt (setExt l m b) j = distAt l j ∧
      elevAt (setExt l m b) j = elevAt l j :=
  fun j => ⟨distAt_setExt l m j b, elevAt_setExt l m j b⟩

theorem fmeGo_distElev (fuel : ℕ) : ∀ (s e : ℕ) (l : List ElevationPoint) (j : ℕ),
    distAt (fmeGo fuel s e l) j = distAt l j ∧
      elevAt (fmeGo fuel s e l) j = elevAt l j := by
  induction fuel with
  | zero => intro s e l j; exact ⟨rfl, rfl⟩
  | succ fuel ih =>
    intro s e l j
    simp only [fmeGo]
    split_ifs with hmx
    · exact ⟨rfl, rfl⟩
    · constructor
      · rw [(ih _ _ _ j).1, (ih _ _ _ j).1, distAt_setExt]
      · rw [(ih _ _ _ j).2, (ih _ _ _ j).2, elevAt_setExt]

theorem extAt_setExt_true_iff (l : List ElevationPoint) (m i : ℕ)
    (hm : m < l.length) :
    (extAt (setExt l m true) i = true ↔ (extAt l i = true ∨ i = m)) := by
  rw [extAt_setExt]
  by_cases h : m = i
  · rw [if_pos ⟨h, hm⟩]
    constructor
    · intro _
      exact Or.inr h.symm
    · intro _
      rfl
  · rw [if_neg (fun hc => h hc.1)]
    constructor
    · exact Or.inl
    · intro hx
      rcases hx with hx | hx
      · exact hx
      · exact absurd hx.symm h

theorem fmeScanGo_spec (pts : List ElevationPoint) (s e : ℕ) :
    ∀ (r i : ℕ) (st : ℕ × ℚ),
    s < i →
    ((st = (s, 49) ∧ ∀ j, s < j → j < i → devSq pts s e j ≤ 49) ∨
      (s < st.1 ∧ st.1 < i ∧ st.2 = devSq pts s e st.1 ∧ 49 < st.2 ∧
        (∀ j, s < j → j < i → devSq pts s e j ≤ st.2) ∧
        (∀ j, s < j → j < st.1 → devSq pts s e j < st.2))) →
    ((fmeScanGo pts s e st i r = (s, 49) ∧
        ∀ j, s < j → j < i + r → devSq pts s e j ≤ 49) ∨
      (s < (fmeScanGo pts s e st i r).1 ∧
        (fmeScanGo pts s e st i r).1 < i + r ∧
        (fmeScanGo pts s e st i r).2 =
          devSq pts s e (fmeScanGo pts s e st i r).1 ∧
        49 < (fmeScanGo pts s e st i r).2 ∧
        (∀ j, s < j → j < i + r →
          devSq pts s e j ≤ (fmeScanGo pts s e st i r).2) ∧
        (∀ j, s < j → j < (fmeScanGo pts s e st i r).1 →
          devSq pts s e j < (fmeScanGo pts s e st i r).2))) := by
  intro r
  induction r with
  | zero =>
    intro i st hi hinv
    simp only [fmeScanGo, Nat.add_zero]
    exact hinv
  | succ r ih =>
    intro i st hi hinv
    simp only [fmeScanGo]
    by_cases hc : st.2 < devSq pts s e i
    · rw [if_pos hc]
      have h49 : (49 : ℚ) < devSq pts s e i := by
        rcases hinv with ⟨h1, _⟩ | h
        · have hst2 : st.2 = 49 := by rw [h1]
          rw [hst2] at hc
          exact hc
        · exact lt_trans h.2.2.2.1 hc
      have hlt' : ∀ j, s < j → j < i → devSq pts s e j < devSq pts s e i := by
        intro j hj1 hj2
        rcases hinv with ⟨h1, h2⟩ | h
        · have hst2 : st.2 = 49 := by rw [h1]
          rw [hst2] at hc
          exact lt_of_le_of_lt (h2 j hj1 hj2) hc
        · exact lt_of_le_of_lt (h.2.2.2.2.1 j hj1 hj2) hc
      have hle' : ∀ j, s < j → j < i + 1 →
          devSq pts s e j ≤ devSq pts s e i := by
        intro j hj1 hj2
        rcases Nat.lt_or_ge j i with hji | hji
        · exact le_of_lt (hlt' j hj1 hji)
        · have hji2 : j = i := by omega
          rw [hji2]
      have hres := ih (i + 1) (i, devSq pts s e i) (by omega)
        (Or.inr ⟨hi, Nat.lt_succ_self i, rfl, h49, hle', hlt'⟩)
      have hbnd : i + (r + 1) = i + 1 + r := by omega
      rw [hbnd]
      exact hres
    · rw [if_neg hc]
      have hdevle : devSq pts s e i ≤ st.2 := le_of_not_lt hc
      have hinv' : (st = (s, 49) ∧
            ∀ j, s < j → j < i + 1 → devSq pts s e j ≤ 49) ∨
          (s < st.1 ∧ st.1 < i + 1 ∧ st.2 = devSq pts s e st.1 ∧ 49 < st.2 ∧
            (∀ j, s < j → j < i + 1 → devSq pts s e j ≤ st.2) ∧
            (∀ j, s < j → j < st.1 → devSq pts s e j < st.2)) := by
        rcases hinv with ⟨h1, h2⟩ | h
        · left
          refine ⟨h1, ?_⟩
          intro j hj1 hj2
          rcases Nat.lt_or_ge j i with hji | hji
          · exact h2 j hj1 hji
          · have hji2 : j = i := by omega
            rw [hji2]
            have hst2 : st.2 = 49 := by rw [h1]
            rw [hst2] at hdevle
            exact hdevle
        · right
          refine ⟨h.1, Nat.lt_succ_of_lt h.2.1, h.2.2.1, h.2.2.2.1, ?_,
            h.2.2.2.2.2⟩
          intro j hj1 hj2
          rcases Nat.lt_or_ge j i with hji | hji
          · exact h.2.2.2.2.1 j hj1 hji
          · have hji2 : j = i := by omega
            rw [hji2]
            exact hdevle
      have hres := ih (i + 1) st (by omega) hinv'
      have hbnd : i + (r + 1) = i + 1 + r := by omega
      rw [hbnd]
      exact hres

theorem fmeScan_spec (pts : List ElevationPoint) (s e : ℕ) :
    ((fmeScan pts s e).1 = s ∧ ∀ j, s < j → j < e → devSq pts s e j ≤ 49) ∨
      chosenMax pts s e (fmeScan pts s e).1 := by
  have h := fmeScanGo_spec pts s e (e - (s + 1)) (s + 1) (s, 49) (by omega)
    (Or.inl ⟨rfl, fun j hj1 hj2 => absurd hj2 (by omega)⟩)
  unfold fmeScan
  rcases h with ⟨h1, h2⟩ | h
  · left
    constructor
    · rw [h1]
    · intro j hj1 hj2
      exact h2 j hj1 (by omega)
  · right
    unfold chosenMax
    obtain ⟨ha, hb, hc, hd, he, hf⟩ := h
    refine ⟨ha, by omega, ?_, ?_, ?_⟩
    · rw [← hc]
      exact hd
    · intro j hj1 hj2
      rw [← hc]
      exact he j hj1 (by omega)
    · intro j hj1 hj2
      rw [← hc]
      exact hf j hj1 hj2

theorem fmeGo_marks (fuel : ℕ) : ∀ (s e : ℕ) (l : List ElevationPoint),
    e - s ≤ fuel → e < l.length →
    ∀ i, (extAt (fmeGo fuel s e l) i = true ↔
      (extAt l i = true ∨ DPmark l s e i)) := by
  induction fuel with
  | zero =>
    intro s e l hf _ i
    simp only [fmeGo]
    constructor
    · exact Or.inl
    · intro h
      rcases h with h | h
      · exact h
      · obtain ⟨h1, h2⟩ := DPmark_bounds l h
        exact absurd (lt_of_lt_of_le (lt_trans h1 h2) (by omega : e ≤ s))
          (lt_irrefl s)
  | succ fuel ih =>
    intro s e l hf hlen i
    simp only [fmeGo]
    split_ifs with hmx
    · have hnone : ¬ DPmark l s e i := by
        intro hd
        have hcm : ∃ m, chosenMax l s e m := by
          cases hd with
          | here hc => exact ⟨_, hc⟩
          | left hc _ => exact ⟨_, hc⟩
          | right hc _ => exact ⟨_, hc⟩
        obtain ⟨m, hm⟩ := hcm
        rcases fmeScan_spec l s e with ⟨_, h2⟩ | h
        · exact absurd (h2 m hm.1 hm.2.1) (not_le_of_lt hm.2.2.1)
        · rw [hmx] at h
          exact absurd h.1 (lt_irrefl s)
      constructor
      · exact Or.inl
      · intro h
        rcases h with h | h
        · exact h
        · exact absurd h hnone
    · have hchosen : chosenMax l s e (fmeScan l s e).1 := by
        rcases fmeScan_spec l s e with ⟨h1, _⟩ | h
        · exact absurd h1 hmx
        · exact h
      obtain ⟨hb1, hb2⟩ := fmeScan_fst_bounds l s e hmx
      have hlen1 : (fmeScan l s e).1 <
          (setExt l (fmeScan l s e).1 true).length := by
        rw [length_setExt]
        omega
      have h1 := ih s (fmeScan l s e).1 (setExt l (fmeScan l s e).1 true)
        (by omega) hlen1
      have hlen2 : e <
          (fmeGo fuel s (fmeScan l s e).1
            (setExt l (fmeScan l s e).1 true)).length := by
        rw [fmeGo_length, length_setExt]
        exact hlen
      have h2 := ih (fmeScan l s e).1 e _ (by omega) hlen2
      rw [h2 i, h1 i]
      have hde1 : ∀ j, distAt (setExt l (fmeScan l s e).1 true) j = distAt l j ∧
          elevAt (setExt l (fmeScan l s e).1 true) j = elevAt l j :=
        distElev_setExt l _ true
      have hde2 : ∀ j,
          distAt (fmeGo fuel s (fmeScan l s e).1
            (setExt l (fmeScan l s e).1 true)) j = distAt l j ∧
          elevAt (fmeGo fuel s (fmeScan l s e).1
            (setExt l (fmeScan l s e).1 true)) j = elevAt l j := by
        intro j
        obtain ⟨hd1, he1⟩ := fmeGo_distElev fuel s (fmeScan l s e).1
          (setExt l (fmeScan l s e).1 true) j
        exact ⟨hd1.trans (hde1 j).1, he1.trans (hde1 j).2⟩
      have hDP1 : DPmark (setExt l (fmeScan l s e).1 true) s (fmeScan l s e).1 i
          ↔ DPmark l s (fmeScan l s e).1 i :=
        ⟨DPmark_congr _ l hde1,
          DPmark_congr l _ (fun j => ⟨(hde1 j).1.symm, (hde1 j).2.symm⟩)⟩
      have hDP2 : DPmark (fmeGo fuel s (fmeScan l s e).1
            (setExt l (fmeScan l s e).1 true)) (fmeScan l s e).1 e i
          ↔ DPmark l (fmeScan l s e).1 e i :=
        ⟨DPmark_congr _ l hde2,
          DPmark_congr l _ (fun j => ⟨(hde2 j).1.symm, (hde2 j).2.symm⟩)⟩
      rw [extAt_setExt_true_iff l (fmeScan l s e).1 i (by omega), hDP1, hDP2,
        DPmark_split l hchosen i]
      tauto

/-- C2, confirmed: `find_maximum_extremum_between s e` sets a point's
extremum flag exactly when it was already set or the recursive
Douglas–Peucker procedure on the (distance, elevation) curve marks it:
on a span `[s, e]`, if some interior index deviates from the chord by more
than `ELE_THRESHOLD = 7.0` (deviation = clamped point-to-segment distance,
compared squared against `49`), the first interior index of maximal
deviation is marked and the procedure recurses on `[s, max]` and
`[max, e]`; otherwise no interior index of the span is marked
(`DPmark` is the spec-side recursive relation, `chosenMax` the
spec-side split index). -/
theorem claim2_extremum_selector (s e : ℕ) (pts : List ElevationPoint)
    (hlen : e < pts.length) (i : ℕ) :
    (extAt (find_maximum_extremum_between s e pts) i = true ↔
      (extAt pts i = true ∨ DPmark pts s e i)) := by
  unfold find_maximum_extremum_between
  exact fmeGo_marks (e - s) s e pts (le_refl _) hlen i

/-- C2, witness: the characterization applied to the concrete three-point
profile `pts3` on the span `[0, 2]` at the interior index `1`. -/
theorem claim2_extremum_selector_witness :
    2 < pts3.length ∧
      (extAt (find_maximum_extremum_between 0 2 pts3) 1 = true ↔
        (extAt pts3 1 = true ∨ DPmark pts3 0 2 1)) :=
  ⟨by decide, claim2_extremum_selector 0 2 pts3 (by decide) 1⟩
